import Mathlib

/-! Verification of the Seedling Labs GitHub issue assistant frontend.

This file gives a shallow embedding of the pure logic found in the React
frontend (`src/frontend/src`) and, where the claims concern the missing
backend, a model built from the specification, together with theorems that
settle the frozen claims about the program. -/

namespace Seedling

/-! ## JavaScript string primitives used by several components -/

/-- JavaScript `String.prototype.toLowerCase` restricted to the ASCII
characters occurring in the error messages. -/
def jsToLower (s : String) : String := String.mk (s.data.map Char.toLower)

/-- Substring search on character lists: true when `needle` occurs
contiguously in the scanned list. -/
def hasSub (needle : List Char) : List Char → Bool
  | [] => needle.isEmpty
  | c :: cs => ((c :: cs).take needle.length == needle) || hasSub needle cs

/-- JavaScript `hay.includes(needle)`. -/
def jsIncludes (hay needle : String) : Bool := hasSub needle.data hay.data

/-! ## DuplicateDetector (src/unnamed/part_000, `getSimilarityColor`)

The component keeps each candidate's `similarity_score` as a number and
derives a presentation bucket from it; scores are modelled as rationals. -/

structure SimColor where
  bg : String
  text : String
  label : String
deriving DecidableEq

/-- `getSimilarityColor` from the DuplicateDetector component. -/
def getSimilarityColor (score : ℚ) : SimColor :=
  if score ≥ 0.85 then ⟨"bg-red-100", "text-red-700", "Very Likely Duplicate"⟩
  else if score ≥ 0.7 then ⟨"bg-orange-100", "text-orange-700", "Likely Duplicate"⟩
  else if score ≥ 0.5 then ⟨"bg-yellow-100", "text-yellow-700", "Possibly Related"⟩
  else ⟨"bg-gray-100", "text-gray-600", "Low Similarity"⟩

/-- JavaScript `Math.round` (half away from zero rounds up, i.e. toward
positive infinity). -/
def jsMathRound (q : ℚ) : ℤ := ⌊q + 1 / 2⌋

/-- The percentage shown next to each duplicate:
`Math.round(dup.similarity_score * 100)`. -/
def duplicateMatchPercent (score : ℚ) : ℤ := jsMathRound (score * 100)

/-! ## DependencyGraph (src/frontend/src/components/DependencyGraph.jsx) -/

/-- The `colors` object literal of `getEdgeColor`. -/
def edgeColors : List (String × String) :=
  [("fixes", "#22c55e"), ("closes", "#22c55e"), ("blocks", "#ef4444"),
   ("blocked_by", "#f97316"), ("mentions", "#6b7280")]

/-- The `labels` object literal of `getEdgeLabel`. -/
def edgeLabelTexts : List (String × String) :=
  [("fixes", "fixes"), ("closes", "closes"), ("blocks", "blocks"),
   ("blocked_by", "blocked by"), ("mentions", "references")]

/-- What a JavaScript property read on a plain object literal can yield:
an own string-valued property, a member inherited from Object.prototype
(a function, or for the dunder proto key the prototype object — truthy
and not one of the literal string values), or undefined. -/
inductive JsProp
  | str (s : String)
  | inherited (name : String)
  | missing
deriving DecidableEq

/-- The property names every plain object inherits from Object.prototype
in a standard JS engine; indexing an object literal with one of these
yields the truthy inherited member, not undefined. -/
def objectProtoKeys : List String :=
  ["constructor", "hasOwnProperty", "isPrototypeOf", "propertyIsEnumerable",
   "toLocaleString", "toString", "valueOf", "__proto__", "__defineGetter__",
   "__defineSetter__", "__lookupGetter__", "__lookupSetter__"]

/-- JavaScript `obj[key]` on an object literal with string values: own
properties first, then the Object.prototype chain, else undefined. -/
def jsGetProp (own : List (String × String)) (key : String) : JsProp :=
  match own.lookup key with
  | some v => .str v
  | none => if key ∈ objectProtoKeys then .inherited key else .missing

/-- JavaScript `a || b` on a property-read result: undefined and the
empty string are falsy; a non-empty string and an inherited member are
truthy and short-circuit. -/
def jsPropOr (a b : JsProp) : JsProp :=
  match a with
  | .missing => b
  | .str s => if s.isEmpty then b else .str s
  | .inherited n => .inherited n

/-- `getEdgeColor`: `colors[type] || colors.mentions`. -/
def getEdgeColor (type : String) : JsProp :=
  jsPropOr (jsGetProp edgeColors type) (jsGetProp edgeColors "mentions")

/-- `getEdgeLabel`: `labels[type] || "references"`. -/
def getEdgeLabel (type : String) : JsProp :=
  jsPropOr (jsGetProp edgeLabelTexts type) (.str "references")

/-! ## PriorityBadge (src/unnamed/part_000) -/

structure PriorityStyle where
  label : String
  bg : String
  text : String
  border : String
  dotColor : String
deriving DecidableEq

/-- The score-3 entry of the badge `config` object. -/
def mediumStyle : PriorityStyle :=
  ⟨"Medium", "bg-yellow-100", "text-yellow-700", "border-yellow-200", "bg-yellow-500"⟩

/-- The `config` object literal of `PriorityBadge`, keyed by score. -/
def priorityConfig : List (Int × PriorityStyle) :=
  [(5, ⟨"Critical", "bg-red-100", "text-red-700", "border-red-200", "bg-red-500"⟩),
   (4, ⟨"High", "bg-orange-100", "text-orange-700", "border-orange-200", "bg-orange-500"⟩),
   (3, mediumStyle),
   (2, ⟨"Low", "bg-blue-100", "text-blue-700", "border-blue-200", "bg-blue-500"⟩),
   (1, ⟨"Minimal", "bg-gray-100", "text-gray-700", "border-gray-200", "bg-gray-400"⟩)]

/-- `config[score] || config[3]` in `PriorityBadge`. -/
def priorityStyle (score : Int) : PriorityStyle :=
  (priorityConfig.lookup score).getD mediumStyle

/-- The badge body renders the literal score: `Priority {score}/5`. -/
def priorityBadgeText (score : Int) : String :=
  "Priority " ++ toString score ++ "/5"

/-! ## ErrorDisplay (src/unnamed/part_001, `getErrorDetails`) -/

/-- A JavaScript value handed to the `error` prop: either a string, or a
non-string value together with its truthiness and its `String(v)` rendering. -/
inductive ErrValue
  | str (s : String)
  | other (truthy : Bool) (shown : String)
deriving DecidableEq

/-- `typeof errorMessage === "string" ? errorMessage :
String(errorMessage || "Unknown error")`. -/
def errMessageString : ErrValue → String
  | .str s => s
  | .other truthy shown => if truthy then shown else "Unknown error"

structure ErrorDetails where
  title : String
  description : ErrValue
  suggestions : List String
deriving DecidableEq

/-- `getErrorDetails` from the ErrorDisplay component. -/
def getErrorDetails (errorMessage : ErrValue) : ErrorDetails :=
  let msg := jsToLower (errMessageString errorMessage)
  if jsIncludes msg "not found" || jsIncludes msg "404" then
    ⟨"Issue Not Found", .str "The repository or issue could not be found.",
      ["Check that the repository URL is correct",
       "Verify the issue number exists",
       "Make sure the repository is public"]⟩
  else if jsIncludes msg "private" || jsIncludes msg "access denied" ||
      jsIncludes msg "403" then
    ⟨"Access Denied", .str "Cannot access this repository.",
      ["This might be a private repository",
       "Only public repositories are supported",
       "Check if the URL is correct"]⟩
  else if jsIncludes msg "rate limit" then
    ⟨"Rate Limit Exceeded", .str "Too many requests to GitHub API.",
      ["Wait a few minutes and try again",
       "GitHub limits unauthenticated requests"]⟩
  else if jsIncludes msg "timeout" then
    ⟨"Request Timeout", .str "The request took too long to complete.",
      ["Check your internet connection",
       "Try again in a moment",
       "The server might be busy"]⟩
  else if jsIncludes msg "ai" || jsIncludes msg "llm" ||
      jsIncludes msg "analysis" then
    ⟨"Analysis Error", .str "The AI could not analyze this issue.",
      ["Try again - sometimes AI responses vary",
       "The issue might have unusual formatting"]⟩
  else
    ⟨"Something Went Wrong", errorMessage,
      ["Please try again", "Check your inputs and try once more"]⟩

/-! ## App.jsx `handleAnalyze` catch branch -/

structure AxiosResponseData where
  detail : Option String
  error : Option String

structure AxiosError where
  code : Option String
  response : Option AxiosResponseData
  request : Bool

/-- JavaScript `v || d` for an optional string (empty string is falsy). -/
def jsOrString : Option String → String → String
  | some s, d => if s = "" then d else s
  | none, d => d

/-- The error message chosen by the `catch` branch of `handleAnalyze`. -/
def handleAnalyzeCatch (err : AxiosError) : String :=
  if err.code = some "ECONNABORTED" then
    "Request timeout. The analysis is taking too long. Please try again."
  else
    match err.response with
    | some rd => jsOrString rd.detail (jsOrString rd.error "Server error. Please try again.")
    | none =>
      if err.request then
        "Could not connect to the server. Please ensure the backend is running."
      else "An unexpected error occurred. Please try again."

/-! ## DependencyGraph depth selector state -/

/-- The three options offered by the depth `select` element. -/
inductive DepthChoice
  | d1
  | d2
  | d3

/-- The string value carried by each option. -/
def DepthChoice.value : DepthChoice → String
  | .d1 => "1"
  | .d2 => "2"
  | .d3 => "3"

/-- JavaScript `Number(s)` restricted to the digit strings produced by the
selector options. -/
def jsNumber (s : String) : Int :=
  ((s.data.foldl (fun a c => a * 10 + (c.toNat - 48)) 0 : Nat) : Int)

/-- The `depth` state after a sequence of select-change events, starting
from `useState(1)`; each event runs `setDepth(Number(e.target.value))`. -/
def depthState (events : List DepthChoice) : Int :=
  events.foldl (fun _ c => jsNumber c.value) 1

/-- The `depth` field sent in the body of `/api/dependencies` requests is
the current `depth` state. -/
def dependenciesRequestDepth (events : List DepthChoice) : Int :=
  depthState events

/-! ## BatchAnalysis (src/frontend/src/components/BatchAnalysis.jsx)

`parseIssueNumbers` splits the input on commas, expands dash ranges with a
per-range cap of ten elements, deduplicates through a `Set` (insertion
order) and slices the first ten. -/

/-- ASCII whitespace, the relevant cases of what JavaScript trims. -/
def isWsChar (c : Char) : Bool := c = ' ' || c = '\t' || c = '\n' || c = '\r'

/-- JavaScript `String.prototype.trim` on a character list. -/
def trimChars (cs : List Char) : List Char :=
  ((cs.dropWhile isWsChar).reverse.dropWhile isWsChar).reverse

/-- JavaScript `s.split(sep)` for a one-character separator: every
occurrence splits, and empty pieces are kept. -/
def splitChar (sep : Char) : List Char → List (List Char)
  | [] => [[]]
  | c :: cs =>
    if c = sep then [] :: splitChar sep cs
    else
      match splitChar sep cs with
      | [] => [[c]]
      | p :: ps => (c :: p) :: ps

/-- Value of a decimal digit character. -/
def digitVal (c : Char) : Option Nat :=
  if c.isDigit then some (c.toNat - 48) else none

/-- Value of a hexadecimal digit character. -/
def hexDigitVal (c : Char) : Option Nat :=
  if c.isDigit then some (c.toNat - 48)
  else if 'a' ≤ c ∧ c ≤ 'f' then some (c.toNat - 87)
  else if 'A' ≤ c ∧ c ≤ 'F' then some (c.toNat - 55)
  else none

/-- Fold the longest prefix of digits into a value. -/
def parseDigitsAux (dv : Char → Option Nat) (base : Nat) : List Char → Nat → Nat
  | [], acc => acc
  | c :: cs, acc =>
    match dv c with
    | some d => parseDigitsAux dv base cs (acc * base + d)
    | none => acc

/-- Longest digit prefix as a value; `none` when no leading digit exists. -/
def parseDigits (dv : Char → Option Nat) (base : Nat) : List Char → Option Nat
  | [] => none
  | c :: cs =>
    match dv c with
    | some d => some (parseDigitsAux dv base cs d)
    | none => none

/-- Magnitude part of JavaScript `parseInt` with no radix: a `0x` prefix
switches to hexadecimal, otherwise the digits are decimal. -/
def jsParseIntMag : List Char → Option Nat
  | '0' :: 'x' :: r => parseDigits hexDigitVal 16 r
  | '0' :: 'X' :: r => parseDigits hexDigitVal 16 r
  | r => parseDigits digitVal 10 r

/-- JavaScript `parseInt(s)` with no radix argument: trim, optional sign,
longest valid digit prefix; `none` models `NaN`. -/
def jsParseInt (s : List Char) : Option Int :=
  match trimChars s with
  | '-' :: r => (jsParseIntMag r).map (fun n => -(n : Int))
  | '+' :: r => (jsParseIntMag r).map (fun n => (n : Int))
  | r => (jsParseIntMag r).map (fun n => (n : Int))

/-- One comma-separated part of the issue-numbers input, as the component
reads it: a dash makes it a range, otherwise it is a single number. -/
inductive PartVal
  | single (n : Int)
  | range (lo hi : Int)
  | invalid

/-- Reading of one trimmed part: `parseInt` on both sides of the first
dash when a dash is present (skipped when either side is `NaN`), plain
`parseInt` otherwise. -/
def parsePart (part : List Char) : PartVal :=
  if part.contains '-' then
    match (splitChar '-' part).map (fun n => jsParseInt (trimChars n)) with
    | some lo :: some hi :: _ => .range lo hi
    | _ => .invalid
  else
    match jsParseInt part with
    | some n => .single n
    | none => .invalid

/-- The integers from `lo` to `hi` inclusive (empty when `hi < lo`). -/
def intRange (lo hi : Int) : List Int :=
  (List.range (hi + 1 - lo).toNat).map (fun (i : Nat) => lo + (i : Int))

/-- The numbers one part contributes as the loop runs: ranges are capped
at `start + 9`, i.e. at ten elements. -/
def expandPartCapped : PartVal → List Int
  | .single n => [n]
  | .range lo hi => intRange lo (min hi (lo + 9))
  | .invalid => []

/-- The full expansion of one part with no cap; this is the expansion the
claim's first-ten-distinct description speaks about. -/
def expandPartFull : PartVal → List Int
  | .single n => [n]
  | .range lo hi => intRange lo hi
  | .invalid => []

/-- First-appearance deduplication with an explicit seen accumulator: the
insertion order of a JavaScript `Set`. -/
def dedupSeen (seen : List Int) : List Int → List Int
  | [] => []
  | x :: xs => if x ∈ seen then dedupSeen seen xs else x :: dedupSeen (x :: seen) xs

/-- The parts of the input: split on commas, each part trimmed. -/
def issueParts (input : String) : List (List Char) :=
  (splitChar ',' input.data).map trimChars

/-- `parseIssueNumbers` from BatchAnalysis. -/
def parseIssueNumbers (input : String) : List Int :=
  (dedupSeen [] ((issueParts input).flatMap
    (fun p => expandPartCapped (parsePart p)))).take 10

/-- The first ten distinct numbers of the full comma-and-range expansion
of the input, in first-appearance order: the claim's description of the
result. -/
def firstTenOfExpansion (input : String) : List Int :=
  (dedupSeen [] ((issueParts input).flatMap
    (fun p => expandPartFull (parsePart p)))).take 10

/-- What `analyzeBatch` does before any network activity. -/
inductive BatchStart
  | error (msg : String)
  | request (repoUrl : String) (issueNumbers : List Int)
deriving DecidableEq

/-- The pre-network phase of `analyzeBatch`: parse the issue numbers,
then either set an error (no valid numbers, or missing repository URL) or
issue exactly one request carrying the parsed numbers. -/
def analyzeBatchStart (issueInput repoUrl : String) : BatchStart :=
  let issueNumbers := parseIssueNumbers issueInput
  if issueNumbers.length = 0 then
    .error "Please enter valid issue numbers (e.g., \"1,2,3\" or \"1-5\")"
  else if repoUrl = "" then
    .error "Please enter a repository URL first"
  else
    .request repoUrl issueNumbers

/-! ### Machinery: taking the first `n` unseen values of a scan -/

/-- Collect up to `n` previously unseen values, returning the collected
output together with the remaining budget and the grown seen accumulator. -/
def collectRun : Nat → List Int → List Int → List Int × Nat × List Int
  | 0, seen, _ => ([], 0, seen)
  | n + 1, seen, [] => ([], n + 1, seen)
  | n + 1, seen, x :: xs =>
    if x ∈ seen then collectRun (n + 1) seen xs
    else
      ((x :: (collectRun n (x :: seen) xs).1),
        (collectRun n (x :: seen) xs).2.1, (collectRun n (x :: seen) xs).2.2)
termination_by _ _ l => l.length

theorem dedupSeen_take (l : List Int) : ∀ (n : Nat) (seen : List Int),
    (dedupSeen seen l).take n = (collectRun n seen l).1 := by
  induction l with
  | nil => intro n seen; cases n <;> simp [dedupSeen, collectRun]
  | cons x xs ih =>
    intro n seen
    cases n with
    | zero => simp [collectRun]
    | succ n =>
      by_cases hx : x ∈ seen
      · simp only [dedupSeen, if_pos hx, collectRun]
        exact ih (n + 1) seen
      · simp only [dedupSeen, if_neg hx, collectRun]
        rw [List.take_succ_cons, ih]

theorem collectRun_append (l : List Int) : ∀ (n : Nat) (seen r : List Int),
    collectRun n seen (l ++ r) =
      ((collectRun n seen l).1 ++
        (collectRun (collectRun n seen l).2.1 (collectRun n seen l).2.2 r).1,
       (collectRun (collectRun n seen l).2.1 (collectRun n seen l).2.2 r).2) := by
  induction l with
  | nil =>
    intro n seen r
    cases n <;> simp [collectRun]
  | cons x xs ih =>
    intro n seen r
    cases n with
    | zero => simp [collectRun]
    | succ n =>
      by_cases hx : x ∈ seen
      · simp only [List.cons_append, collectRun, if_pos hx]
        exact ih (n + 1) seen r
      · simp only [List.cons_append, collectRun, if_neg hx]
        rw [ih n (x :: seen) r]

theorem collectRun_budget (l : List Int) : ∀ (n : Nat) (seen : List Int),
    (collectRun n seen l).2.1 + (collectRun n seen l).1.length = n := by
  induction l with
  | nil => intro n seen; cases n <;> simp [collectRun]
  | cons x xs ih =>
    intro n seen
    cases n with
    | zero => simp [collectRun]
    | succ n =>
      by_cases hx : x ∈ seen
      · simp only [collectRun, if_pos hx]
        exact ih (n + 1) seen
      · simp only [collectRun, if_neg hx, List.length_cons]
        have := ih n (x :: seen)
        omega

theorem collectRun_seen_length (l : List Int) : ∀ (n : Nat) (seen : List Int),
    (collectRun n seen l).2.2.length = (collectRun n seen l).1.length + seen.length := by
  induction l with
  | nil => intro n seen; cases n <;> simp [collectRun]
  | cons x xs ih =>
    intro n seen
    cases n with
    | zero => simp [collectRun]
    | succ n =>
      by_cases hx : x ∈ seen
      · simp only [collectRun, if_pos hx]
        exact ih (n + 1) seen
      · simp only [collectRun, if_neg hx, List.length_cons]
        rw [ih n (x :: seen)]
        simp
        omega

theorem collectRun_seen_nodup (l : List Int) : ∀ (n : Nat) (seen : List Int),
    seen.Nodup → (collectRun n seen l).2.2.Nodup := by
  induction l with
  | nil => intro n seen h; cases n <;> simpa [collectRun]
  | cons x xs ih =>
    intro n seen h
    cases n with
    | zero => simpa [collectRun]
    | succ n =>
      by_cases hx : x ∈ seen
      · simp only [collectRun, if_pos hx]
        exact ih (n + 1) seen h
      · simp only [collectRun, if_neg hx]
        exact ih n (x :: seen) (List.nodup_cons.mpr ⟨hx, h⟩)

theorem countP_decide_mem_cons {b : Int} {xs : List Int} (l : List Int)
    (hbl : b ∉ l) :
    l.countP (fun a => decide (a ∈ b :: xs)) =
      l.countP (fun a => decide (a ∈ xs)) := by
  induction l with
  | nil => rfl
  | cons d ds ih =>
    rw [List.countP_cons, List.countP_cons,
      ih (fun h => hbl (List.mem_cons_of_mem d h))]
    have hdb : d ≠ b := fun h => hbl (h ▸ List.mem_cons_self d ds)
    have hd : decide (d ∈ b :: xs) = decide (d ∈ xs) := by
      simp [List.mem_cons, hdb]
    rw [hd]

theorem countP_mem_cons_succ {x : Int} {xs : List Int} (seen : List Int)
    (hxs : x ∉ xs) (hx : x ∈ seen) (hseen : seen.Nodup) :
    seen.countP (fun a => decide (a ∈ x :: xs)) =
      seen.countP (fun a => decide (a ∈ xs)) + 1 := by
  induction seen with
  | nil => simp at hx
  | cons b bs ih =>
    obtain ⟨hbbs, hbs⟩ := List.nodup_cons.mp hseen
    rw [List.countP_cons, List.countP_cons]
    rcases List.mem_cons.mp hx with hxb | hxbs
    · have hbx : b = x := hxb.symm
      subst hbx
      rw [countP_decide_mem_cons bs hbbs]
      have h1 : decide (b ∈ b :: xs) = true := by simp
      have h2 : decide (b ∈ xs) = false := by simpa using hxs
      rw [h1, h2]
      simp
    · have hbx : b ≠ x := fun h => hbbs (h ▸ hxbs)
      rw [ih hxbs hbs]
      have hd : decide (b ∈ x :: xs) = decide (b ∈ xs) := by
        simp [List.mem_cons, hbx]
      rw [hd]
      omega

theorem countP_mem_cons_le {x : Int} {xs : List Int} (seen : List Int) :
    seen.countP (fun a => decide (a ∈ xs)) ≤
      seen.countP (fun a => decide (a ∈ x :: xs)) := by
  induction seen with
  | nil => simp
  | cons b bs ih =>
    rw [List.countP_cons, List.countP_cons]
    have hle : (if decide (b ∈ xs) = true then 1 else 0) ≤
        (if decide (b ∈ x :: xs) = true then (1 : Nat) else 0) := by
      by_cases hb : b ∈ xs
      · simp [hb, List.mem_cons]
      · simp [hb]
    omega

theorem collectRun_take (c : List Int) (hc : c.Nodup) :
    ∀ (n m : Nat) (seen : List Int), seen.Nodup →
      n + seen.countP (fun a => decide (a ∈ c)) ≤ m →
      collectRun n seen (c.take m) = collectRun n seen c := by
  induction c with
  | nil => intro n m seen _ _; simp
  | cons x xs ih =>
    intro n m seen hseen hbound
    obtain ⟨hxxs, hxs⟩ := List.nodup_cons.mp hc
    cases n with
    | zero => simp [collectRun]
    | succ n =>
      cases m with
      | zero =>
        exfalso
        omega
      | succ m =>
        rw [List.take_succ_cons]
        by_cases hx : x ∈ seen
        · simp only [collectRun, if_pos hx]
          apply ih hxs (n + 1) m seen hseen
          have := countP_mem_cons_succ seen hxxs hx hseen
          omega
        · simp only [collectRun, if_neg hx]
          have h1 : collectRun n (x :: seen) (xs.take m) = collectRun n (x :: seen) xs := by
            apply ih hxs n m (x :: seen) (List.nodup_cons.mpr ⟨hx, hseen⟩)
            rw [List.countP_cons]
            have hb : decide (x ∈ xs) = false := by simpa using hxxs
            rw [hb]
            have hmono := @countP_mem_cons_le x xs seen
            simp only [Bool.false_eq_true, if_false]
            omega
          rw [h1]

theorem collectRun_flat_take (chunks : List (List Int))
    (hchunks : ∀ c ∈ chunks, c.Nodup) :
    ∀ (n : Nat) (seen : List Int), seen.Nodup → n + seen.length ≤ 10 →
      collectRun n seen (chunks.flatMap (fun c => c.take 10)) =
        collectRun n seen (chunks.flatMap id) := by
  induction chunks with
  | nil => intro n seen _ _; rfl
  | cons c cs ih =>
    intro n seen hseen hb
    simp only [List.flatMap_cons, id]
    rw [collectRun_append, collectRun_append]
    have hceq : collectRun n seen (c.take 10) = collectRun n seen c := by
      apply collectRun_take c (hchunks c (List.mem_cons_self c cs)) n 10 seen hseen
      have := List.countP_le_length (l := seen) (p := fun a => decide (a ∈ c))
      omega
    rw [hceq]
    have hnodup := collectRun_seen_nodup c n seen hseen
    have hlen := collectRun_seen_length c n seen
    have hbud := collectRun_budget c n seen
    rw [ih (fun d hd => hchunks d (List.mem_cons_of_mem c hd)) _ _ hnodup (by omega)]

theorem expandPartCapped_eq_take (p : PartVal) :
    expandPartCapped p = (expandPartFull p).take 10 := by
  cases p with
  | single n => rfl
  | invalid => rfl
  | range lo hi =>
    show intRange lo (min hi (lo + 9)) = (intRange lo hi).take 10
    unfold intRange
    rw [← List.map_take, List.take_range]
    congr 2
    omega

theorem expandPartFull_nodup (p : PartVal) : (expandPartFull p).Nodup := by
  cases p with
  | single n => simp [expandPartFull]
  | invalid => simp [expandPartFull]
  | range lo hi =>
    show (intRange lo hi).Nodup
    unfold intRange
    exact List.Nodup.map (fun a b h => by omega) (List.nodup_range _)

/-- C1: `parseIssueNumbers` returns at most ten numbers, and they are
exactly the first ten distinct numbers of the full comma-and-range
expansion of the input in first-appearance order; when the result is
non-empty and a repository URL is present, `analyzeBatch` issues its one
request with exactly those numbers, so the cap is applied before any
network activity and over-cap numbers are dropped without an error. -/
theorem batch_cap_first_ten (input repoUrl : String) :
    parseIssueNumbers input = firstTenOfExpansion input ∧
    (parseIssueNumbers input).length ≤ 10 ∧
    (parseIssueNumbers input ≠ [] → repoUrl ≠ "" →
      analyzeBatchStart input repoUrl =
        .request repoUrl (parseIssueNumbers input)) := by
  have key : parseIssueNumbers input = firstTenOfExpansion input := by
    unfold parseIssueNumbers firstTenOfExpansion
    rw [dedupSeen_take, dedupSeen_take]
    have h1 : (issueParts input).flatMap (fun p => expandPartCapped (parsePart p)) =
        ((issueParts input).map (fun p => expandPartFull (parsePart p))).flatMap
          (fun c => c.take 10) := by
      rw [List.flatMap_map]
      simp only [expandPartCapped_eq_take]
    have h2 : (issueParts input).flatMap (fun p => expandPartFull (parsePart p)) =
        ((issueParts input).map (fun p => expandPartFull (parsePart p))).flatMap
          id := by
      rw [List.flatMap_map]
      rfl
    rw [h1, h2, collectRun_flat_take _ (fun c hc => by
      obtain ⟨p, _, rfl⟩ := List.mem_map.mp hc
      exact expandPartFull_nodup _) 10 [] List.nodup_nil (by simp)]
  refine ⟨key, List.length_take_le _ _, ?_⟩
  intro hne hrepo
  unfold analyzeBatchStart
  simp only []
  rw [if_neg (fun h => hne (List.length_eq_zero.mp h)), if_neg hrepo]

/-- C1 witness: the request issued for the range input 1-50 carries
exactly the parsed (capped) numbers. -/
theorem batch_cap_first_ten_witness :
    parseIssueNumbers "1-50" ≠ [] ∧ ("https://github.com/facebook/react" ≠ "") ∧
    analyzeBatchStart "1-50" "https://github.com/facebook/react" =
      .request "https://github.com/facebook/react" (parseIssueNumbers "1-50") :=
  ⟨by decide, by decide, (batch_cap_first_ten "1-50" _).2.2 (by decide) (by decide)⟩

/-! ## InputForm (src/frontend/src/components/InputForm.jsx) -/

/-- A character of the `[\w.-]` class of the URL pattern: ASCII word
characters, dot and dash. -/
def urlChunkChar (c : Char) : Bool :=
  c.isAlpha || c.isDigit || c = '_' || c = '.' || c = '-'

/-- Strip an exact literal prefix, returning the remainder. -/
def stripPre : List Char → List Char → Option (List Char)
  | [], cs => some cs
  | _ :: _, [] => none
  | p :: ps, c :: cs => if c = p then stripPre ps cs else none

/-- Consume the optional `s` of `https?`. -/
def skipS : List Char → List Char
  | [] => []
  | c :: r => if c = 's' then r else c :: r

/-- `validateUrl`: the test of the anchored pattern
`https?://github.com/[\w.-]+/[\w.-]+/?` against the trimmed URL. -/
def validateUrl (url : String) : Bool :=
  match stripPre "http".data (trimChars url.data) with
  | none => false
  | some cs0 =>
    match stripPre "://github.com/".data (skipS cs0) with
    | none => false
    | some cs2 =>
      match cs2.dropWhile urlChunkChar with
      | '/' :: cs3 =>
        match cs3.dropWhile urlChunkChar with
        | [] =>
          !(cs2.takeWhile urlChunkChar).isEmpty &&
            !(cs3.takeWhile urlChunkChar).isEmpty
        | ['/'] =>
          !(cs2.takeWhile urlChunkChar).isEmpty &&
            !(cs3.takeWhile urlChunkChar).isEmpty
        | _ => false
      | _ => false

/-- The claim's description of an accepted repository URL:
`https?://github.com/owner/repo` with nonempty owner and repo over the
`[\w.-]` class and an optional trailing slash; `sdecor` is the optional
scheme s, `tail` the optional trailing slash. -/
def GithubUrlShape (cs : List Char) : Prop :=
  ∃ (sdecor owner repo tail : List Char),
    cs = "http".data ++ sdecor ++ "://github.com/".data ++
      owner ++ '/' :: (repo ++ tail) ∧
    (sdecor = [] ∨ sdecor = ['s']) ∧ (tail = [] ∨ tail = ['/']) ∧
    owner ≠ [] ∧ (∀ c ∈ owner, urlChunkChar c = true) ∧
    repo ≠ [] ∧ (∀ c ∈ repo, urlChunkChar c = true)

/-- `parseInt(s, 10)`: trim, optional sign, decimal digits only. -/
def jsParseIntDec (s : List Char) : Option Int :=
  match trimChars s with
  | '-' :: r => (parseDigits digitVal 10 r).map (fun n => -(n : Int))
  | '+' :: r => (parseDigits digitVal 10 r).map (fun n => (n : Int))
  | r => (parseDigits digitVal 10 r).map (fun n => (n : Int))

/-- Outcome of a form submission. -/
inductive SubmitResult
  | submit (repoUrl : String) (issueNumber : Int)
  | invalid (message : String)
deriving DecidableEq

/-- `handleSubmit` of InputForm (after `preventDefault`): empty-URL check,
URL pattern check, then the issue-number check, and otherwise one
`onSubmit` call with the trimmed URL and the parsed number. -/
def handleSubmit (repoUrl issueNumber : String) : SubmitResult :=
  if trimChars repoUrl.data = [] then
    .invalid "Please enter a GitHub repository URL"
  else if validateUrl repoUrl = false then
    .invalid "Invalid URL format. Example: https://github.com/facebook/react"
  else
    match jsParseIntDec issueNumber.data with
    | none => .invalid "Please enter a valid issue number (positive integer)"
    | some n =>
      if issueNumber.data = [] ∨ n ≤ 0 then
        .invalid "Please enter a valid issue number (positive integer)"
      else
        .submit (String.mk (trimChars repoUrl.data)) n

/-! ### URL matcher lemmas -/

theorem stripPre_eq_some (p : List Char) : ∀ {cs r : List Char},
    stripPre p cs = some r → cs = p ++ r := by
  induction p with
  | nil => intro cs r h; simpa [stripPre] using h
  | cons a ps ih =>
    intro cs r h
    cases cs with
    | nil => simp [stripPre] at h
    | cons c cs =>
      simp only [stripPre] at h
      by_cases hca : c = a
      · rw [if_pos hca] at h
        rw [hca, ih h]
        rfl
      · rw [if_neg hca] at h
        exact absurd h (by simp)

theorem stripPre_append (p r : List Char) : stripPre p (p ++ r) = some r := by
  induction p with
  | nil => rfl
  | cons a ps ih => simp [stripPre, ih]

theorem takeWhile_append_stop {p : Char → Bool} {l : List Char}
    (hall : ∀ c ∈ l, p c = true) {y : Char} (hy : p y = false) (r : List Char) :
    (l ++ y :: r).takeWhile p = l ∧ (l ++ y :: r).dropWhile p = y :: r := by
  induction l with
  | nil => simp [List.takeWhile_cons, List.dropWhile_cons, hy]
  | cons a as ih =>
    have ha : p a = true := hall a (List.mem_cons_self a as)
    have ihh := ih (fun c hc => hall c (List.mem_cons_of_mem a hc))
    simp [List.takeWhile_cons, List.dropWhile_cons, ha, ihh.1, ihh.2]

theorem takeWhile_all {p : Char → Bool} {l : List Char}
    (hall : ∀ c ∈ l, p c = true) :
    l.takeWhile p = l ∧ l.dropWhile p = [] := by
  induction l with
  | nil => simp
  | cons a as ih =>
    have ha : p a = true := hall a (List.mem_cons_self a as)
    have ihh := ih (fun c hc => hall c (List.mem_cons_of_mem a hc))
    simp [List.takeWhile_cons, List.dropWhile_cons, ha, ihh.1, ihh.2]

theorem mem_takeWhile_pred {p : Char → Bool} : ∀ {l : List Char} {c : Char},
    c ∈ l.takeWhile p → p c = true := by
  intro l
  induction l with
  | nil => intro c h; simp at h
  | cons a as ih =>
    intro c h
    rw [List.takeWhile_cons] at h
    by_cases ha : p a = true
    · rw [if_pos ha] at h
      rcases List.mem_cons.mp h with rfl | h2
      · exact ha
      · exact ih h2
    · rw [if_neg ha] at h
      simp at h

theorem urlShape_of_parts {t cs0 cs2 cs3 : List Char} (tail : List Char)
    (htl : tail = [] ∨ tail = ['/'])
    (hhttp : t = "http".data ++ cs0)
    (hsk : skipS cs0 = "://github.com/".data ++ cs2)
    (howner : cs2 = cs2.takeWhile urlChunkChar ++ '/' :: cs3)
    (hdrop2 : cs3.dropWhile urlChunkChar = tail)
    (ho : (cs2.takeWhile urlChunkChar).isEmpty = false)
    (hr : (cs3.takeWhile urlChunkChar).isEmpty = false) :
    GithubUrlShape t := by
  have hcs0 : cs0 = (if cs0.headI = 's' then ['s'] else []) ++ skipS cs0 := by
    cases cs0 with
    | nil => simp [skipS]
    | cons a r =>
      by_cases ha : a = 's'
      · subst ha
        simp [skipS, List.headI]
      · simp [skipS, List.headI, ha]
  have hrepo : cs3 = cs3.takeWhile urlChunkChar ++ tail := by
    conv_lhs => rw [← List.takeWhile_append_dropWhile (p := urlChunkChar) (l := cs3)]
    rw [hdrop2]
  refine ⟨if cs0.headI = 's' then ['s'] else [], cs2.takeWhile urlChunkChar,
    cs3.takeWhile urlChunkChar, tail, ?_, ?_, htl, ?_,
    fun c hc => mem_takeWhile_pred hc, ?_, fun c hc => mem_takeWhile_pred hc⟩
  · calc t = "http".data ++ cs0 := hhttp
      _ = "http".data ++ ((if cs0.headI = 's' then ['s'] else []) ++ skipS cs0) :=
          congrArg _ hcs0
      _ = "http".data ++ ((if cs0.headI = 's' then ['s'] else []) ++
            ("://github.com/".data ++ cs2)) := by rw [hsk]
      _ = "http".data ++ ((if cs0.headI = 's' then ['s'] else []) ++
            ("://github.com/".data ++ (cs2.takeWhile urlChunkChar ++ '/' :: cs3))) :=
          congrArg (fun z => "http".data ++ ((if cs0.headI = 's' then ['s'] else []) ++
            ("://github.com/".data ++ z))) howner
      _ = "http".data ++ ((if cs0.headI = 's' then ['s'] else []) ++
            ("://github.com/".data ++ (cs2.takeWhile urlChunkChar ++ '/' ::
              (cs3.takeWhile urlChunkChar ++ tail)))) :=
          congrArg (fun z => "http".data ++ ((if cs0.headI = 's' then ['s'] else []) ++
            ("://github.com/".data ++ (cs2.takeWhile urlChunkChar ++ '/' :: z)))) hrepo
      _ = "http".data ++ (if cs0.headI = 's' then ['s'] else []) ++
            "://github.com/".data ++ cs2.takeWhile urlChunkChar ++ '/' ::
              (cs3.takeWhile urlChunkChar ++ tail) := by
          simp [List.append_assoc]
  · by_cases h : cs0.headI = 's'
    · exact Or.inr (if_pos h)
    · exact Or.inl (if_neg h)
  · intro he
    rw [he] at ho
    simp at ho
  · intro he
    rw [he] at hr
    simp at hr

theorem validateUrl_true_of_parts (url : String)
    (sdecor owner repo tail : List Char)
    (hshape : trimChars url.data = "http".data ++ (sdecor ++
      ("://github.com/".data ++ (owner ++ '/' :: (repo ++ tail)))))
    (hskipS : skipS (sdecor ++ ("://github.com/".data ++
        (owner ++ '/' :: (repo ++ tail)))) =
      "://github.com/".data ++ (owner ++ '/' :: (repo ++ tail)))
    (hdropO : (owner ++ '/' :: (repo ++ tail)).dropWhile urlChunkChar =
      '/' :: (repo ++ tail))
    (htakeO : (owner ++ '/' :: (repo ++ tail)).takeWhile urlChunkChar = owner)
    (hdropR : (repo ++ tail).dropWhile urlChunkChar = tail)
    (htakeR : (repo ++ tail).takeWhile urlChunkChar = repo)
    (htail : tail = [] ∨ tail = ['/'])
    (ho : owner.isEmpty = false) (hr : repo.isEmpty = false) :
    validateUrl url = true := by
  unfold validateUrl
  rw [hshape, stripPre_append]
  split
  next heq2 => exact Option.noConfusion heq2
  next cs0 heq2 =>
    obtain rfl : _ = cs0 := Option.some.inj heq2
    rw [hskipS, stripPre_append]
    split
    next heq3 => exact Option.noConfusion heq3
    next cs2 heq3 =>
      obtain rfl : _ = cs2 := Option.some.inj heq3
      rw [hdropO]
      split
      next cs3 heq4 =>
        injection heq4 with h1 h2
        subst h2
        rw [hdropR]
        rcases htail with rfl | rfl
        · split
          next =>
            rw [htakeO, htakeR, ho, hr]
            rfl
          next heq5 => exact List.noConfusion heq5
          next h1 h2 => exact absurd rfl h1
        · split
          next heq5 => exact List.noConfusion heq5
          next =>
            rw [htakeO, htakeR, ho, hr]
            rfl
          next h1 h2 => exact absurd rfl h2
      next hne => exact absurd rfl (hne (repo ++ tail))

theorem validateUrl_iff (url : String) :
    validateUrl url = true ↔ GithubUrlShape (trimChars url.data) := by
  constructor
  · intro h
    unfold validateUrl at h
    split at h
    · simp at h
    next cs0 hstrip =>
      split at h
      · simp at h
      next cs2 hstrip2 =>
        split at h
        next cs3 hdrop =>
          have hhttp : trimChars url.data = "http".data ++ cs0 :=
            stripPre_eq_some _ hstrip
          have hsk : skipS cs0 = "://github.com/".data ++ cs2 :=
            stripPre_eq_some _ hstrip2
          have howner : cs2 = cs2.takeWhile urlChunkChar ++ '/' :: cs3 := by
            conv_lhs =>
              rw [← List.takeWhile_append_dropWhile (p := urlChunkChar) (l := cs2)]
            rw [hdrop]
          split at h
          next hdrop2 =>
            rcases Bool.and_eq_true_iff.mp h with ⟨ho, hr⟩
            exact urlShape_of_parts [] (Or.inl rfl) hhttp hsk howner hdrop2
              (by simpa using ho) (by simpa using hr)
          next hdrop2 =>
            rcases Bool.and_eq_true_iff.mp h with ⟨ho, hr⟩
            exact urlShape_of_parts ['/'] (Or.inr rfl) hhttp hsk howner hdrop2
              (by simpa using ho) (by simpa using hr)
          next => simp at h
        next => simp at h
  · rintro ⟨sdecor, owner, repo, tail, heq, hsd, htl, howner, hownerc, hrepo, hrepoc⟩
    obtain ⟨a, as, ha⟩ := List.exists_cons_of_ne_nil howner
    obtain ⟨b, bs, hb⟩ := List.exists_cons_of_ne_nil hrepo
    have hslash : urlChunkChar '/' = false := by decide
    have hcolon : "://github.com/".data = ':' :: "//github.com/".data := rfl
    have hmid := takeWhile_append_stop hownerc hslash (repo ++ tail)
    have ho : owner.isEmpty = false := by rw [ha]; rfl
    have hr : repo.isEmpty = false := by rw [hb]; rfl
    have hdropR : (repo ++ tail).dropWhile urlChunkChar = tail := by
      rcases htl with rfl | rfl
      · rw [List.append_nil]
        exact (takeWhile_all hrepoc).2
      · exact (takeWhile_append_stop hrepoc hslash []).2
    have htakeR : (repo ++ tail).takeWhile urlChunkChar = repo := by
      rcases htl with rfl | rfl
      · rw [List.append_nil]
        exact (takeWhile_all hrepoc).1
      · exact (takeWhile_append_stop hrepoc hslash []).1
    have hshape : trimChars url.data = "http".data ++ (sdecor ++
        ("://github.com/".data ++ (owner ++ '/' :: (repo ++ tail)))) := by
      rw [heq]
      simp [List.append_assoc]
    have hskipS : skipS (sdecor ++ ("://github.com/".data ++
        (owner ++ '/' :: (repo ++ tail)))) =
        "://github.com/".data ++ (owner ++ '/' :: (repo ++ tail)) := by
      rcases hsd with rfl | rfl
      · rw [List.nil_append, hcolon]
        simp [skipS]
      · simp [skipS]
    exact validateUrl_true_of_parts url sdecor owner repo tail hshape hskipS
      hmid.2 hmid.1 hdropR htakeR htl ho hr

/-- C8: `handleSubmit` calls `onSubmit` exactly when the trimmed URL has
the shape `https?://github.com/owner/repo` (nonempty owner and repository
over word characters, dot and dash, with an optional trailing slash) and
the issue-number field parses in base 10 to an integer strictly greater
than zero; the payload is the trimmed URL with that integer, and every
other input yields a non-empty validation error message with no
submission. -/
theorem inputform_submit_iff (repoUrl issueNumber : String) :
    (∀ (r : String) (n : Int),
      handleSubmit repoUrl issueNumber = .submit r n ↔
        (r = String.mk (trimChars repoUrl.data) ∧
         GithubUrlShape (trimChars repoUrl.data) ∧
         jsParseIntDec issueNumber.data = some n ∧ 0 < n)) ∧
    (∀ msg, handleSubmit repoUrl issueNumber = .invalid msg → msg ≠ "") := by
  by_cases h0 : trimChars repoUrl.data = []
  · have hA : handleSubmit repoUrl issueNumber =
        .invalid "Please enter a GitHub repository URL" := by
      unfold handleSubmit
      rw [if_pos h0]
    refine ⟨fun r n => ⟨fun h => ?_, fun ⟨hre, hshape, hparse, hn⟩ => ?_⟩,
      fun msg h => ?_⟩
    · rw [hA] at h
      exact SubmitResult.noConfusion h
    · exfalso
      rw [h0] at hshape
      obtain ⟨sd, o, rp, t, heq, -⟩ := hshape
      rw [show "http".data = 'h' :: "ttp".data from rfl] at heq
      simp at heq
    · rw [hA] at h
      injection h with hmsg
      rw [← hmsg]
      decide
  · by_cases h1 : validateUrl repoUrl = false
    · have hB : handleSubmit repoUrl issueNumber =
          .invalid "Invalid URL format. Example: https://github.com/facebook/react" := by
        unfold handleSubmit
        rw [if_neg h0, if_pos h1]
      refine ⟨fun r n => ⟨fun h => ?_, fun ⟨hre, hshape, hparse, hn⟩ => ?_⟩,
        fun msg h => ?_⟩
      · rw [hB] at h
        exact SubmitResult.noConfusion h
      · exact absurd ((validateUrl_iff repoUrl).mpr hshape) (by simp [h1])
      · rw [hB] at h
        injection h with hmsg
        rw [← hmsg]
        decide
    · have hv : validateUrl repoUrl = true := by
        revert h1
        cases validateUrl repoUrl <;> simp
      cases hparse : jsParseIntDec issueNumber.data with
      | none =>
        have hC : handleSubmit repoUrl issueNumber =
            .invalid "Please enter a valid issue number (positive integer)" := by
          unfold handleSubmit
          rw [if_neg h0, if_neg (by simp [hv]), hparse]
        refine ⟨fun r n => ⟨fun h => ?_, fun ⟨hre, hshape, hp, hn⟩ => ?_⟩,
          fun msg h => ?_⟩
        · rw [hC] at h
          exact SubmitResult.noConfusion h
        · exact Option.noConfusion hp
        · rw [hC] at h
          injection h with hmsg
          rw [← hmsg]
          decide
      | some m =>
        have hD : handleSubmit repoUrl issueNumber =
            (if issueNumber.data = [] ∨ m ≤ 0 then
              .invalid "Please enter a valid issue number (positive integer)"
            else .submit (String.mk (trimChars repoUrl.data)) m) := by
          unfold handleSubmit
          rw [if_neg h0, if_neg (by simp [hv]), hparse]
        by_cases h2 : issueNumber.data = [] ∨ m ≤ 0
        · rw [if_pos h2] at hD
          refine ⟨fun r n => ⟨fun h => ?_, fun ⟨hre, hshape, hp, hn⟩ => ?_⟩,
            fun msg h => ?_⟩
          · rw [hD] at h
            exact SubmitResult.noConfusion h
          · obtain rfl : m = n := Option.some.inj hp
            rcases h2 with h2 | h2
            · have hnone : jsParseIntDec issueNumber.data = none := by
                rw [h2]
                rfl
              rw [hparse] at hnone
              exact Option.noConfusion hnone
            · omega
          · rw [hD] at h
            injection h with hmsg
            rw [← hmsg]
            decide
        · rw [if_neg h2] at hD
          push_neg at h2
          refine ⟨fun r n => ⟨fun h => ?_, fun ⟨hre, hshape, hp, hn⟩ => ?_⟩,
            fun msg h => ?_⟩
          · rw [hD] at h
            injection h with hr hn
            refine ⟨hr.symm, (validateUrl_iff repoUrl).mp hv, ?_, ?_⟩
            · rw [hn]
            · have := h2.2
              omega
          · rw [hD]
            obtain rfl : m = n := Option.some.inj hp
            rw [hre]
          · rw [hD] at h
            exact SubmitResult.noConfusion h

/-- C8 witness: a concrete valid URL and issue number submit the trimmed
URL and the parsed number, and a concrete empty URL yields a non-empty
error message. -/
theorem inputform_submit_iff_witness :
    (handleSubmit "https://github.com/facebook/react" "28850" =
      .submit (String.mk (trimChars "https://github.com/facebook/react".data)) 28850) ∧
    "Please enter a GitHub repository URL" ≠ "" :=
  ⟨((inputform_submit_iff "https://github.com/facebook/react" "28850").1
      (String.mk (trimChars "https://github.com/facebook/react".data)) 28850).mpr
      ⟨rfl, ⟨['s'], "facebook".data, "react".data, [], by decide, Or.inr rfl,
        Or.inl rfl, by decide, by decide, by decide, by decide⟩, by decide, by decide⟩,
   (inputform_submit_iff "" "28850").2 "Please enter a GitHub repository URL"
     (by decide)⟩

/-! ## ResponseRepairParser (modelled from the spec)

The backend that hosts ResponseRepairParser is not under src/; the
definitions in this section are modelled from the specification: the
AnalysisRecord data model of section 3, JSON serialization of such a
record, and the staged repair parse of section 4.3 (whole string, fenced
code block, balanced braces), with validation of field presence, types
and ranges. The JSON grammar is restricted to the forms an AnalysisRecord
serialization uses: objects, arrays, strings and unsigned decimal
numbers. -/

/-- The closed `type` enumeration. -/
inductive IssueType
  | bug
  | feature_request
  | documentation
  | question
  | other
deriving DecidableEq

/-- The wire text of each type. -/
def IssueType.toText : IssueType → String
  | .bug => "bug"
  | .feature_request => "feature_request"
  | .documentation => "documentation"
  | .question => "question"
  | .other => "other"

/-- Modelled from the spec: the enumeration check of the validator. -/
def parseIssueType (s : String) : Option IssueType :=
  if s = "bug" then some .bug
  else if s = "feature_request" then some .feature_request
  else if s = "documentation" then some .documentation
  else if s = "question" then some .question
  else if s = "other" then some .other
  else none

/-- An unsigned decimal number `m / 10 ^ e`: the JSON-number form the
serializer emits (e.g. confidence 0.85 is `⟨85, 2⟩`). -/
structure Dec where
  m : Nat
  e : Nat
deriving DecidableEq

/-- Modelled from the spec: the AnalysisRecord of the data model. -/
structure AnalysisRecord where
  summary : String
  type : IssueType
  priority_score : Nat
  priority_justification : String
  suggested_labels : List String
  potential_impact : String
  confidence_score : Dec
  draft_response : String
deriving DecidableEq

/-- The section-3 invariants: priority in 1..5, confidence in [0,1]. -/
def ValidRecord (r : AnalysisRecord) : Prop :=
  1 ≤ r.priority_score ∧ r.priority_score ≤ 5 ∧
  r.confidence_score.m ≤ 10 ^ r.confidence_score.e

instance (r : AnalysisRecord) : Decidable (ValidRecord r) := by
  unfold ValidRecord
  infer_instance

/-- A parsed JSON value. -/
inductive JVal
  | str (s : String)
  | num (d : Dec)
  | arr (elems : List JVal)
  | obj (fields : List (String × JVal))

/-! ### Serialization -/

/-- JSON string escaping of one character. -/
def escapeChar (c : Char) : List Char :=
  if c = '"' then ['\\', '"']
  else if c = '\\' then ['\\', '\\']
  else if c = '\n' then ['\\', 'n']
  else if c = '\t' then ['\\', 't']
  else if c = '\r' then ['\\', 'r']
  else [c]

def escapeList (cs : List Char) : List Char := cs.flatMap escapeChar

/-- A JSON string literal. -/
def renderString (s : String) : List Char :=
  '"' :: (escapeList s.data ++ ['"'])

def digitChar (n : Nat) : Char := Char.ofNat (48 + n)

def natDigitsAux : Nat → Nat → List Char
  | 0, _ => []
  | fuel + 1, n => if n = 0 then [] else natDigitsAux fuel (n / 10) ++ [digitChar (n % 10)]

/-- The decimal digits of a natural number. -/
def natDigits (n : Nat) : List Char := if n = 0 then ['0'] else natDigitsAux n n

/-- Left-pad with zero digits to the given width. -/
def padZeros (k : Nat) (ds : List Char) : List Char :=
  List.replicate (k - ds.length) '0' ++ ds

/-- A JSON number: integer digits, and for a positive exponent a dot and
exactly `e` fraction digits. -/
def renderDec (d : Dec) : List Char :=
  if d.e = 0 then natDigits d.m
  else natDigits (d.m / 10 ^ d.e) ++ '.' :: padZeros d.e (natDigits (d.m % 10 ^ d.e))

/-- The body of a JSON string array after the opening bracket, written
with an explicit continuation for the text that follows it. -/
def strArrTail : List String → List Char → List Char
  | [], rest => ']' :: rest
  | [x], rest => renderString x ++ ']' :: rest
  | x :: y :: xs, rest => renderString x ++ ',' :: strArrTail (y :: xs) rest

/-- The eight fields of a serialized AnalysisRecord, the closing brace,
and then the continuation. -/
def fieldsTail (r : AnalysisRecord) (rest : List Char) : List Char :=
  renderString "summary" ++ ':' :: (renderString r.summary ++ ',' ::
  (renderString "type" ++ ':' :: (renderString r.type.toText ++ ',' ::
  (renderString "priority_score" ++ ':' ::
    (renderDec ⟨r.priority_score, 0⟩ ++ ',' ::
  (renderString "priority_justification" ++ ':' ::
    (renderString r.priority_justification ++ ',' ::
  (renderString "suggested_labels" ++ ':' ::
    ('[' :: strArrTail r.suggested_labels (',' ::
  (renderString "potential_impact" ++ ':' ::
    (renderString r.potential_impact ++ ',' ::
  (renderString "confidence_score" ++ ':' ::
    (renderDec r.confidence_score ++ ',' ::
  (renderString "draft_response" ++ ':' ::
    (renderString r.draft_response ++ '}' :: rest))))))))))))))))

/-- Modelled from the spec: JSON serialization of an AnalysisRecord. -/
def serializeRecord (r : AnalysisRecord) : List Char :=
  '{' :: fieldsTail r []

/-- The JSON value a serialized record denotes. -/
def recordJVal (r : AnalysisRecord) : JVal :=
  .obj [("summary", .str r.summary),
        ("type", .str r.type.toText),
        ("priority_score", .num ⟨r.priority_score, 0⟩),
        ("priority_justification", .str r.priority_justification),
        ("suggested_labels", .arr (r.suggested_labels.map JVal.str)),
        ("potential_impact", .str r.potential_impact),
        ("confidence_score", .num r.confidence_score),
        ("draft_response", .str r.draft_response)]

/-! ### Recursive-descent JSON parser -/

/-- Consume one expected character. -/
def expectChar (c : Char) : List Char → Option (List Char)
  | [] => none
  | x :: xs => if x = c then some xs else none

def unescChar (c : Char) : Option Char :=
  if c = '"' then some '"'
  else if c = '\\' then some '\\'
  else if c = 'n' then some '\n'
  else if c = 't' then some '\t'
  else if c = 'r' then some '\r'
  else none

/-- Parse a string body after its opening quote, up to and including the
closing quote. -/
def parseStrBody : List Char → Option (List Char × List Char)
  | [] => none
  | c :: cs =>
    if c = '"' then some ([], cs)
    else if c = '\\' then
      match cs with
      | [] => none
      | e :: cs2 =>
        match unescChar e with
        | none => none
        | some u =>
          match parseStrBody cs2 with
          | none => none
          | some p => some (u :: p.1, p.2)
    else
      match parseStrBody cs with
      | none => none
      | some p => some (c :: p.1, p.2)

/-- Longest digit prefix together with the remainder. -/
def takeDigits : List Char → List Char × List Char
  | [] => ([], [])
  | c :: cs =>
    if c.isDigit then
      ((c :: (takeDigits cs).1), (takeDigits cs).2)
    else ([], c :: cs)

def digitsToNat (ds : List Char) : Nat :=
  ds.foldl (fun a c => a * 10 + (c.toNat - 48)) 0

/-- Parse an unsigned decimal number, with an optional fraction part. -/
def parseNum : List Char → Option (Dec × List Char)
  | [] => none
  | c :: cs =>
    if c.isDigit then
      let p := takeDigits (c :: cs)
      match expectChar '.' p.2 with
      | some r2 =>
        let q := takeDigits r2
        if q.1.isEmpty then none
        else some (⟨digitsToNat p.1 * 10 ^ q.1.length + digitsToNat q.1, q.1.length⟩, q.2)
      | none => some (⟨digitsToNat p.1, 0⟩, p.2)
    else none

mutual

/-- Parse one JSON value; the fuel bounds the nesting and field count. -/
def parseVal : Nat → List Char → Option (JVal × List Char)
  | 0, _ => none
  | fuel + 1, cs =>
    match cs with
    | [] => none
    | c :: cs1 =>
      if c = '"' then
        (parseStrBody cs1).map fun p => (.str (String.mk p.1), p.2)
      else if c = '[' then
        (parseElems fuel cs1).map fun p => (.arr p.1, p.2)
      else if c = '{' then
        (parseFields fuel cs1).map fun p => (.obj p.1, p.2)
      else if c.isDigit then
        (parseNum (c :: cs1)).map fun p => (.num p.1, p.2)
      else none

/-- Parse array elements after the opening bracket. -/
def parseElems : Nat → List Char → Option (List JVal × List Char)
  | 0, _ => none
  | fuel + 1, cs =>
    match expectChar ']' cs with
    | some r => some ([], r)
    | none =>
      (parseVal fuel cs).bind fun p =>
        match expectChar ',' p.2 with
        | some r2 => (parseElems fuel r2).map fun q => (p.1 :: q.1, q.2)
        | none => (expectChar ']' p.2).map fun r2 => ([p.1], r2)

/-- Parse object fields after the opening brace. -/
def parseFields : Nat → List Char → Option (List (String × JVal) × List Char)
  | 0, _ => none
  | fuel + 1, cs =>
    match expectChar '}' cs with
    | some r => some ([], r)
    | none =>
      (expectChar '"' cs).bind fun cs1 =>
        (parseStrBody cs1).bind fun p =>
          (expectChar ':' p.2).bind fun r2 =>
            (parseVal fuel r2).bind fun q =>
              match expectChar ',' q.2 with
              | some r4 =>
                (parseFields fuel r4).map fun t => ((String.mk p.1, q.1) :: t.1, t.2)
              | none =>
                (expectChar '}' q.2).map fun r4 => ([(String.mk p.1, q.1)], r4)

end

/-- Modelled from the spec: parse an entire string as JSON, with a fuel
bound that exceeds any possible nesting or field count. -/
def parseJsonAll (cs : List Char) : Option JVal :=
  match parseVal (cs.length + 4) cs with
  | some (v, []) => some v
  | _ => none

/-! ### Validation -/

def asStr : JVal → Option String
  | .str s => some s
  | _ => none

def strsOf : List JVal → Option (List String)
  | [] => some []
  | v :: vs =>
    match v with
    | .str s => (strsOf vs).map fun ss => s :: ss
    | _ => none

def asStrList : JVal → Option (List String)
  | .arr vs => strsOf vs
  | _ => none

def asNum : JVal → Option Dec
  | .num d => some d
  | _ => none

/-- Modelled from the spec: validate field presence and types/ranges of a
candidate object per the data model; an out-of-range value fails rather
than being clamped. -/
def validateRecord (v : JVal) : Option AnalysisRecord :=
  match v with
  | .obj fs => do
    let summary ← (fs.lookup "summary").bind asStr
    let typeText ← (fs.lookup "type").bind asStr
    let type ← parseIssueType typeText
    let pd ← (fs.lookup "priority_score").bind asNum
    if pd.e = 0 ∧ 1 ≤ pd.m ∧ pd.m ≤ 5 then
      let pj ← (fs.lookup "priority_justification").bind asStr
      let labels ← (fs.lookup "suggested_labels").bind asStrList
      let impact ← (fs.lookup "potential_impact").bind asStr
      let cd ← (fs.lookup "confidence_score").bind asNum
      if cd.m ≤ 10 ^ cd.e then
        let draft ← (fs.lookup "draft_response").bind asStr
        some ⟨summary, type, pd.m, pj, labels, impact, cd, draft⟩
      else none
    else none
  | _ => none

/-! ### Fence extraction and the staged repair -/

/-- The backtick character. -/
def btick : Char := Char.ofNat 96

/-- Whether the list starts with a triple-backtick fence. -/
def startsFence (cs : List Char) : Bool := cs.take 3 == [btick, btick, btick]

/-- The text after the first opening fence. -/
def findFence : List Char → Option (List Char)
  | [] => none
  | c :: cs => if startsFence (c :: cs) then some (cs.drop 2) else findFence cs

/-- The text before the next fence, and the text after that fence. -/
def takeUntilFence : List Char → Option (List Char × List Char)
  | [] => none
  | c :: cs =>
    if startsFence (c :: cs) then some ([], cs.drop 2)
    else
      match takeUntilFence cs with
      | none => none
      | some p => some (c :: p.1, p.2)

/-- Skip the optional `json` tag after the opening fence. -/
def skipJsonTag (cs : List Char) : List Char :=
  if cs.take 4 == ['j', 's', 'o', 'n'] then cs.drop 4 else cs

/-- Modelled from the spec: locate a fenced code block (triple backticks,
optionally tagged json) and return its trimmed interior. -/
def extractFenced (cs : List Char) : Option (List Char) :=
  match findFence cs with
  | none => none
  | some rest =>
    match takeUntilFence (skipJsonTag rest) with
    | none => none
    | some p => some (trimChars p.1)

/-- Scan for the closing brace matching one already-open brace. -/
def braceScan : Nat → List Char → List Char → Option (List Char)
  | _, _, [] => none
  | depth, acc, c :: cs =>
    if c = '{' then braceScan (depth + 1) (c :: acc) cs
    else if c = '}' then
      if depth = 1 then some ('}' :: acc).reverse
      else braceScan (depth - 1) (c :: acc) cs
    else braceScan depth (c :: acc) cs

/-- Modelled from the spec: the first top-level balanced-brace substring. -/
def extractBraces : List Char → Option (List Char)
  | [] => none
  | c :: cs => if c = '{' then braceScan 1 [c] cs else extractBraces cs

/-- Stage 1: parse the entire reply as JSON and validate. -/
def stage1Parse (cs : List Char) : Option AnalysisRecord :=
  (parseJsonAll cs).bind validateRecord

/-- Stage 2: parse the fenced block interior and validate. -/
def stage2Parse (cs : List Char) : Option AnalysisRecord :=
  (extractFenced cs).bind fun i => (parseJsonAll i).bind validateRecord

/-- Stage 3: parse the first balanced-brace substring and validate. -/
def stage3Parse (cs : List Char) : Option AnalysisRecord :=
  (extractBraces cs).bind fun i => (parseJsonAll i).bind validateRecord

/-- Modelled from the spec: ResponseRepairParser — the ordered stages,
each attempted only if the previous fails. -/
def repairParse (cs : List Char) : Option AnalysisRecord :=
  match stage1Parse cs with
  | some r => some r
  | none =>
    match stage2Parse cs with
    | some r => some r
    | none => stage3Parse cs

/-- A generator reply: prose, then a json-tagged fenced block holding the
payload, then more prose. -/
def wrapFenced (pre post payload : List Char) : List Char :=
  pre ++ btick :: btick :: btick :: 'j' :: 's' :: 'o' :: 'n' :: '\n' ::
    (payload ++ '\n' :: btick :: btick :: btick :: post)

/-- A prose character: one that opens no JSON value and no fence — not a
quote, digit, bracket, brace or backtick. -/
def proseChar (c : Char) : Bool :=
  !(c = '"' || c = '[' || c = '{' || c.isDigit || c = btick)

/-! ### Round-trip lemmas: strings and digits -/

theorem mk_data (s : String) : String.mk s.data = s := rfl

theorem parseStrBody_escape (cs : List Char) : ∀ rest : List Char,
    parseStrBody (escapeList cs ++ '"' :: rest) = some (cs, rest) := by
  induction cs with
  | nil =>
    intro rest
    rw [show escapeList [] = [] from rfl, List.nil_append, parseStrBody.eq_def]
    simp
  | cons c cs ih =>
    intro rest
    rw [show escapeList (c :: cs) = escapeChar c ++ escapeList cs from rfl,
      List.append_assoc]
    by_cases h1 : c = '"'
    · subst h1
      rw [show escapeChar '"' = ['\\', '"'] from rfl, List.cons_append,
        List.singleton_append, parseStrBody.eq_def]
      simp [unescChar, ih]
    · by_cases h2 : c = '\\'
      · subst h2
        rw [show escapeChar '\\' = ['\\', '\\'] from rfl, List.cons_append,
          List.singleton_append, parseStrBody.eq_def]
        simp [unescChar, ih]
      · by_cases h3 : c = '\n'
        · subst h3
          rw [show escapeChar '\n' = ['\\', 'n'] from rfl, List.cons_append,
            List.singleton_append, parseStrBody.eq_def]
          simp [unescChar, ih]
        · by_cases h4 : c = '\t'
          · subst h4
            rw [show escapeChar '\t' = ['\\', 't'] from rfl, List.cons_append,
              List.singleton_append, parseStrBody.eq_def]
            simp [unescChar, ih]
          · by_cases h5 : c = '\r'
            · subst h5
              rw [show escapeChar '\r' = ['\\', 'r'] from rfl, List.cons_append,
                List.singleton_append, parseStrBody.eq_def]
              simp [unescChar, ih]
            · rw [show escapeChar c = [c] from by
                simp [escapeChar, h1, h2, h3, h4, h5],
                List.singleton_append, parseStrBody.eq_def]
              simp [h1, h2, ih]

theorem digitChar_toNat {k : Nat} (h : k < 10) : (digitChar k).toNat = 48 + k := by
  interval_cases k <;> rfl

theorem digitChar_isDigit {k : Nat} (h : k < 10) : (digitChar k).isDigit = true := by
  interval_cases k <;> rfl

theorem natDigitsAux_eq (fuel n : Nat) : natDigitsAux (fuel + 1) n =
    if n = 0 then [] else natDigitsAux fuel (n / 10) ++ [digitChar (n % 10)] := rfl

theorem natDigitsAux_all (fuel : Nat) : ∀ n, ∀ c ∈ natDigitsAux fuel n,
    c.isDigit = true := by
  induction fuel with
  | zero => intro n c hc; simp [natDigitsAux] at hc
  | succ fuel ih =>
    intro n c hc
    by_cases hn : n = 0
    · rw [natDigitsAux_eq, if_pos hn] at hc
      simp at hc
    · rw [natDigitsAux_eq, if_neg hn] at hc
      rcases List.mem_append.mp hc with h | h
      · exact ih _ c h
      · rw [List.mem_singleton.mp h]
        exact digitChar_isDigit (Nat.mod_lt _ (by norm_num))

theorem foldl_natDigitsAux (fuel : Nat) : ∀ n acc, n ≤ fuel →
    List.foldl (fun a c => a * 10 + (c.toNat - 48)) acc (natDigitsAux fuel n) =
      acc * 10 ^ (natDigitsAux fuel n).length + n := by
  induction fuel with
  | zero =>
    intro n acc h
    have hn : n = 0 := by omega
    subst hn
    simp [natDigitsAux]
  | succ fuel ih =>
    intro n acc h
    by_cases hn : n = 0
    · subst hn
      simp [natDigitsAux_eq]
    · rw [natDigitsAux_eq, if_neg hn, List.foldl_append,
        ih (n / 10) acc (by omega), List.length_append]
      simp only [List.foldl_cons, List.foldl_nil, List.length_append,
        List.length_singleton]
      rw [digitChar_toNat (Nat.mod_lt _ (by norm_num)), pow_succ, ← mul_assoc]
      generalize acc * 10 ^ (natDigitsAux fuel (n / 10)).length = A
      omega

theorem digitsToNat_natDigits (n : Nat) : digitsToNat (natDigits n) = n := by
  unfold natDigits digitsToNat
  by_cases hn : n = 0
  · subst hn
    rfl
  · rw [if_neg hn]
    have := foldl_natDigitsAux n n 0 (le_refl n)
    simpa using this

theorem natDigits_all (n : Nat) : ∀ c ∈ natDigits n, c.isDigit = true := by
  unfold natDigits
  by_cases hn : n = 0
  · rw [if_pos hn]
    intro c hc
    rw [List.mem_singleton.mp hc]
    rfl
  · rw [if_neg hn]
    exact natDigitsAux_all n n

theorem natDigits_ne_nil (n : Nat) : natDigits n ≠ [] := by
  unfold natDigits
  by_cases hn : n = 0
  · rw [if_pos hn]
    simp
  · rw [if_neg hn]
    cases n with
    | zero => exact absurd rfl hn
    | succ m =>
      rw [natDigitsAux_eq, if_neg hn]
      simp

theorem natDigitsAux_len_le (fuel : Nat) : ∀ n k, n ≤ fuel → n < 10 ^ k →
    (natDigitsAux fuel n).length ≤ k := by
  induction fuel with
  | zero =>
    intro n k h _
    have hn : n = 0 := by omega
    subst hn
    simp [natDigitsAux]
  | succ fuel ih =>
    intro n k h hk
    by_cases hn : n = 0
    · rw [natDigitsAux_eq, if_pos hn]
      simp
    · rw [natDigitsAux_eq, if_neg hn]
      cases k with
      | zero =>
        simp at hk
        omega
      | succ k =>
        have hdiv : n / 10 < 10 ^ k := by
          rw [pow_succ] at hk
          exact (Nat.div_lt_iff_lt_mul (by norm_num)).mpr hk
        have := ih (n / 10) k (by omega) hdiv
        simp only [List.length_append, List.length_singleton]
        omega

theorem natDigits_len_le {n k : Nat} (h : n < 10 ^ k) (hk : 1 ≤ k) :
    (natDigits n).length ≤ k := by
  unfold natDigits
  by_cases hn : n = 0
  · rw [if_pos hn]
    simpa using hk
  · rw [if_neg hn]
    exact natDigitsAux_len_le n n k (le_refl n) h

theorem takeDigits_append (ds : List Char) (r : List Char)
    (hds : ∀ c ∈ ds, c.isDigit = true)
    (hr : ∀ c, r.head? = some c → c.isDigit = false) :
    takeDigits (ds ++ r) = (ds, r) := by
  induction ds with
  | nil =>
    cases r with
    | nil => rfl
    | cons a t => simp [takeDigits, hr a rfl]
  | cons c cs ih =>
    have hc := hds c (List.mem_cons_self c cs)
    simp [takeDigits, hc, ih (fun x hx => hds x (List.mem_cons_of_mem c hx))]

theorem foldl_replicate_zero (k : Nat) (ds : List Char) :
    List.foldl (fun a c => a * 10 + (c.toNat - 48)) 0
      (List.replicate k '0' ++ ds) =
      List.foldl (fun a c => a * 10 + (c.toNat - 48)) 0 ds := by
  induction k with
  | zero => rfl
  | succ k ih =>
    simp only [List.replicate_succ, List.cons_append, List.foldl_cons]
    have h0 : ('0' : Char).toNat = 48 := rfl
    simpa [h0] using ih

theorem digitsToNat_padZeros (k : Nat) (ds : List Char) :
    digitsToNat (padZeros k ds) = digitsToNat ds :=
  foldl_replicate_zero _ _

theorem padZeros_length {k : Nat} {ds : List Char} (h : ds.length ≤ k) :
    (padZeros k ds).length = k := by
  simp [padZeros]
  omega

theorem padZeros_all {k : Nat} {ds : List Char}
    (hds : ∀ c ∈ ds, c.isDigit = true) :
    ∀ c ∈ padZeros k ds, c.isDigit = true := by
  intro c hc
  rcases List.mem_append.mp hc with h | h
  · rw [List.eq_of_mem_replicate h]
    rfl
  · exact hds c h

theorem expectChar_none {c : Char} {r : List Char}
    (h : ∀ x, r.head? = some x → x ≠ c) : expectChar c r = none := by
  cases r with
  | nil => rfl
  | cons a t => simp [expectChar, h a rfl]

theorem parseNum_renderDec (d : Dec) (rest : List Char)
    (hrest : ∀ c, rest.head? = some c → c.isDigit = false ∧ c ≠ '.') :
    parseNum (renderDec d ++ rest) = some (d, rest) := by
  obtain ⟨m, e⟩ := d
  cases e with
  | zero =>
    rw [show renderDec ⟨m, 0⟩ = natDigits m from rfl]
    obtain ⟨c, ds, hnd⟩ := List.exists_cons_of_ne_nil (natDigits_ne_nil m)
    have hall : ∀ x ∈ natDigits m, x.isDigit = true := natDigits_all m
    have hc : c.isDigit = true := hall c (hnd ▸ List.mem_cons_self c ds)
    have htd : takeDigits (c :: (ds ++ rest)) = (c :: ds, rest) := by
      rw [← List.cons_append, ← hnd]
      exact takeDigits_append _ _ hall (fun x hx => (hrest x hx).1)
    rw [hnd, List.cons_append, parseNum.eq_def]
    simp only [hc, if_true, htd,
      expectChar_none (fun x hx => (hrest x hx).2)]
    rw [← hnd, digitsToNat_natDigits]
  | succ e =>
    have hE : 0 < 10 ^ (e + 1) := Nat.pos_pow_of_pos _ (by norm_num)
    have hmod : m % 10 ^ (e + 1) < 10 ^ (e + 1) := Nat.mod_lt _ hE
    have hPlen : (padZeros (e + 1) (natDigits (m % 10 ^ (e + 1)))).length = e + 1 :=
      padZeros_length (natDigits_len_le hmod (by omega))
    have hPall : ∀ x ∈ padZeros (e + 1) (natDigits (m % 10 ^ (e + 1))),
        x.isDigit = true := padZeros_all (natDigits_all _)
    have hIall : ∀ x ∈ natDigits (m / 10 ^ (e + 1)), x.isDigit = true :=
      natDigits_all _
    obtain ⟨c, ds, hnd⟩ :=
      List.exists_cons_of_ne_nil (natDigits_ne_nil (m / 10 ^ (e + 1)))
    have hc : c.isDigit = true := hIall c (hnd ▸ List.mem_cons_self c ds)
    have hrd : renderDec ⟨m, e + 1⟩ =
        natDigits (m / 10 ^ (e + 1)) ++
          '.' :: padZeros (e + 1) (natDigits (m % 10 ^ (e + 1))) := rfl
    have htd1 : takeDigits (c :: (ds ++
        '.' :: (padZeros (e + 1) (natDigits (m % 10 ^ (e + 1))) ++ rest))) =
        (c :: ds, '.' :: (padZeros (e + 1) (natDigits (m % 10 ^ (e + 1))) ++ rest)) := by
      rw [← List.cons_append, ← hnd]
      exact takeDigits_append _ _ hIall (fun x hx => by
        rw [show ('.' :: (padZeros (e + 1) (natDigits (m % 10 ^ (e + 1))) ++
          rest)).head? = some '.' from rfl] at hx
        exact Option.some.inj hx ▸ rfl)
    have htd2 : takeDigits (padZeros (e + 1) (natDigits (m % 10 ^ (e + 1))) ++ rest) =
        (padZeros (e + 1) (natDigits (m % 10 ^ (e + 1))), rest) :=
      takeDigits_append _ _ hPall (fun x hx => (hrest x hx).1)
    have hPne : (padZeros (e + 1) (natDigits (m % 10 ^ (e + 1)))).isEmpty = false := by
      cases hcase : padZeros (e + 1) (natDigits (m % 10 ^ (e + 1))) with
      | nil => rw [hcase] at hPlen; simp at hPlen
      | cons a t => rfl
    rw [hrd, hnd]
    simp only [List.cons_append, List.append_assoc]
    rw [parseNum.eq_def]
    simp only [hc, if_true, htd1, expectChar, if_pos rfl, htd2, hPne,
      Bool.false_eq_true, if_false]
    rw [← hnd, digitsToNat_natDigits, digitsToNat_padZeros, digitsToNat_natDigits,
      hPlen]
    congr 2
    rw [Nat.div_add_mod']

theorem renderDec_head (d : Dec) : ∃ c ds, renderDec d = c :: ds ∧ c.isDigit = true := by
  obtain ⟨m, e⟩ := d
  cases e with
  | zero =>
    obtain ⟨c, ds, hnd⟩ := List.exists_cons_of_ne_nil (natDigits_ne_nil m)
    exact ⟨c, ds, hnd, natDigits_all m c (hnd ▸ List.mem_cons_self c ds)⟩
  | succ e =>
    obtain ⟨c, ds, hnd⟩ :=
      List.exists_cons_of_ne_nil (natDigits_ne_nil (m / 10 ^ (e + 1)))
    refine ⟨c, ds ++ '.' :: padZeros (e + 1) (natDigits (m % 10 ^ (e + 1))), ?_,
      natDigits_all _ c (hnd ▸ List.mem_cons_self c ds)⟩
    rw [show renderDec ⟨m, e + 1⟩ = natDigits (m / 10 ^ (e + 1)) ++
      '.' :: padZeros (e + 1) (natDigits (m % 10 ^ (e + 1))) from rfl, hnd]
    rfl

theorem headFacts_cons {y : Char} (hy : y.isDigit = false ∧ y ≠ '.')
    (x : List Char) :
    ∀ c, ((y :: x).head? = some c) → c.isDigit = false ∧ c ≠ '.' :=
  fun _ hc => (Option.some.inj hc) ▸ hy

theorem parseVal_str (g : Nat) (s : String) (rest : List Char) :
    parseVal (g + 1) (renderString s ++ rest) = some (.str s, rest) := by
  rw [show renderString s ++ rest = '"' :: (escapeList s.data ++ '"' :: rest) from by
    simp [renderString], parseVal.eq_def]
  simp [parseStrBody_escape, mk_data]

theorem parseVal_num (g : Nat) (d : Dec) (rest : List Char)
    (hrest : ∀ c, rest.head? = some c → c.isDigit = false ∧ c ≠ '.') :
    parseVal (g + 1) (renderDec d ++ rest) = some (.num d, rest) := by
  obtain ⟨c, ds, hrd, hdig⟩ := renderDec_head d
  have hc1 : ¬c = '"' := fun h => absurd (h ▸ hdig) (by decide)
  have hc2 : ¬c = '[' := fun h => absurd (h ▸ hdig) (by decide)
  have hc3 : ¬c = '{' := fun h => absurd (h ▸ hdig) (by decide)
  rw [hrd, List.cons_append, parseVal.eq_def]
  simp only [hc1, hc2, hc3, hdig, if_false, if_true]
  rw [← List.cons_append, ← hrd, parseNum_renderDec d rest hrest]
  rfl

theorem parseElems_strArr (ls : List String) : ∀ (g : Nat) (rest : List Char),
    parseElems (g + ls.length + 1) (strArrTail ls rest) =
      some (ls.map JVal.str, rest) := by
  induction ls with
  | nil =>
    intro g rest
    rw [show strArrTail [] rest = ']' :: rest from rfl, parseElems.eq_def]
    simp [expectChar]
  | cons x xs ih =>
    intro g rest
    cases xs with
    | nil =>
      rw [show strArrTail [x] rest = renderString x ++ ']' :: rest from rfl]
      have hne : expectChar ']' (renderString x ++ ']' :: rest) = none := by
        rw [show renderString x ++ ']' :: rest =
          '"' :: (escapeList x.data ++ ['"'] ++ ']' :: rest) from by simp [renderString]]
        simp [expectChar]
      rw [show g + ([x] : List String).length + 1 = (g + 1) + 1 from by
        simp, parseElems.eq_def]
      simp only [hne, parseVal_str g x (']' :: rest), Option.some_bind]
      simp [expectChar]
    | cons y ys =>
      rw [show strArrTail (x :: y :: ys) rest =
        renderString x ++ ',' :: strArrTail (y :: ys) rest from rfl]
      have hne : expectChar ']'
          (renderString x ++ ',' :: strArrTail (y :: ys) rest) = none := by
        rw [show renderString x ++ ',' :: strArrTail (y :: ys) rest =
          '"' :: (escapeList x.data ++ ['"'] ++ ',' :: strArrTail (y :: ys) rest)
          from by simp [renderString]]
        simp [expectChar]
      rw [show g + (x :: y :: ys).length + 1 =
        ((g + (y :: ys).length) + 1) + 1 from by simp [List.length_cons]; omega,
        parseElems.eq_def]
      simp only [hne,
        parseVal_str (g + (y :: ys).length) x (',' :: strArrTail (y :: ys) rest),
        Option.some_bind]
      simp only [expectChar, eq_self_iff_true, if_true]
      rw [ih g rest]
      simp

theorem parseVal_arr (g : Nat) (ls : List String) (rest : List Char) :
    parseVal (g + ls.length + 2) ('[' :: strArrTail ls rest) =
      some (.arr (ls.map JVal.str), rest) := by
  rw [show g + ls.length + 2 = (g + ls.length + 1) + 1 from rfl, parseVal.eq_def]
  simp only [if_false, if_true, List.cons.injEq]
  rw [show ('[' : Char) = '[' from rfl]
  simp only [show ¬('[' : Char) = '"' from by decide, if_false,
    show (('[' : Char) = '[') = True from by simp, if_true]
  rw [parseElems_strArr ls g rest]
  rfl

theorem parseVal_obj (g : Nat) (cs : List Char) :
    parseVal (g + 1) ('{' :: cs) =
      (parseFields g cs).map fun p => (.obj p.1, p.2) := by
  rw [parseVal.eq_def]
  simp

theorem parseFields_cons_of (g : Nat) (k : String) (tail : List Char) (v : JVal)
    (more : List Char) (hv : parseVal g tail = some (v, ',' :: more)) :
    parseFields (g + 1) (renderString k ++ ':' :: tail) =
      (parseFields g more).map fun t => ((k, v) :: t.1, t.2) := by
  rw [show renderString k ++ ':' :: tail =
    '"' :: (escapeList k.data ++ '"' :: ':' :: tail) from by simp [renderString],
    parseFields.eq_def]
  simp [expectChar, parseStrBody_escape, hv, mk_data]

theorem parseFields_last_of (g : Nat) (k : String) (tail : List Char) (v : JVal)
    (rest : List Char) (hv : parseVal g tail = some (v, '}' :: rest)) :
    parseFields (g + 1) (renderString k ++ ':' :: tail) = some ([(k, v)], rest) := by
  rw [show renderString k ++ ':' :: tail =
    '"' :: (escapeList k.data ++ '"' :: ':' :: tail) from by simp [renderString],
    parseFields.eq_def]
  simp [expectChar, parseStrBody_escape, hv, mk_data]

theorem parseFields_strField (g : Nat) (k s : String) (more : List Char) :
    parseFields (g + 2) (renderString k ++ ':' :: (renderString s ++ ',' :: more)) =
      (parseFields (g + 1) more).map fun t => ((k, JVal.str s) :: t.1, t.2) :=
  parseFields_cons_of (g + 1) k _ _ more (parseVal_str g s (',' :: more))

theorem parseFields_numField (g : Nat) (k : String) (d : Dec) (more : List Char) :
    parseFields (g + 2) (renderString k ++ ':' :: (renderDec d ++ ',' :: more)) =
      (parseFields (g + 1) more).map fun t => ((k, JVal.num d) :: t.1, t.2) :=
  parseFields_cons_of (g + 1) k _ _ more
    (parseVal_num g d (',' :: more) (headFacts_cons (by decide) more))

theorem parseFields_arrField (g : Nat) (k : String) (ls : List String)
    (more : List Char) :
    parseFields (g + ls.length + 3)
        (renderString k ++ ':' :: ('[' :: strArrTail ls (',' :: more))) =
      (parseFields (g + ls.length + 2) more).map
        fun t => ((k, JVal.arr (ls.map JVal.str)) :: t.1, t.2) :=
  parseFields_cons_of (g + ls.length + 2) k _ _ more (parseVal_arr g ls (',' :: more))

theorem parseFields_lastStrField (g : Nat) (k s : String) (rest : List Char) :
    parseFields (g + 2) (renderString k ++ ':' :: (renderString s ++ '}' :: rest)) =
      some ([(k, JVal.str s)], rest) :=
  parseFields_last_of (g + 1) k _ _ rest (parseVal_str g s ('}' :: rest))

theorem parseRecord (r : AnalysisRecord) (rest : List Char) (f : Nat) :
    parseVal (f + (r.suggested_labels.length + 12)) ('{' :: fieldsTail r rest) =
      some (recordJVal r, rest) := by
  rw [show f + (r.suggested_labels.length + 12) =
    (f + (r.suggested_labels.length + 11)) + 1 from rfl, parseVal_obj]
  simp only [fieldsTail]
  rw [show f + (r.suggested_labels.length + 11) =
    f + (r.suggested_labels.length + 9) + 2 from by omega, parseFields_strField]
  rw [show f + (r.suggested_labels.length + 9) + 1 =
    f + (r.suggested_labels.length + 8) + 2 from by omega, parseFields_strField]
  rw [show f + (r.suggested_labels.length + 8) + 1 =
    f + (r.suggested_labels.length + 7) + 2 from by omega, parseFields_numField]
  rw [show f + (r.suggested_labels.length + 7) + 1 =
    f + (r.suggested_labels.length + 6) + 2 from by omega, parseFields_strField]
  rw [show f + (r.suggested_labels.length + 6) + 1 =
    f + 4 + r.suggested_labels.length + 3 from by omega, parseFields_arrField]
  rw [show f + 4 + r.suggested_labels.length + 2 =
    f + (r.suggested_labels.length + 4) + 2 from by omega, parseFields_strField]
  rw [show f + (r.suggested_labels.length + 4) + 1 =
    f + (r.suggested_labels.length + 3) + 2 from by omega, parseFields_numField]
  rw [show f + (r.suggested_labels.length + 3) + 1 =
    f + (r.suggested_labels.length + 2) + 2 from by omega, parseFields_lastStrField]
  simp [recordJVal]

theorem strArrTail_length (ls : List String) : ∀ rest : List Char,
    rest.length + ls.length + 1 ≤ (strArrTail ls rest).length := by
  induction ls with
  | nil => intro rest; simp [strArrTail]
  | cons x xs ih =>
    cases xs with
    | nil => intro rest; simp [strArrTail, renderString]; omega
    | cons y ys =>
      intro rest
      have h := ih rest
      rw [show strArrTail (x :: y :: ys) rest =
        renderString x ++ ',' :: strArrTail (y :: ys) rest from rfl]
      simp only [List.length_append, List.length_cons] at h ⊢
      omega

theorem fieldsTail_length (r : AnalysisRecord) (rest : List Char) :
    r.suggested_labels.length + 11 ≤ (fieldsTail r rest).length := by
  have h := strArrTail_length r.suggested_labels (',' ::
    (renderString "potential_impact" ++ ':' :: (renderString r.potential_impact ++
      ',' :: (renderString "confidence_score" ++ ':' ::
        (renderDec r.confidence_score ++ ',' :: (renderString "draft_response" ++
          ':' :: (renderString r.draft_response ++ '}' :: rest)))))))
  simp only [fieldsTail, List.length_append, List.length_cons] at h ⊢
  omega

theorem parseJsonAll_serialize (r : AnalysisRecord) :
    parseJsonAll (serializeRecord r) = some (recordJVal r) := by
  obtain ⟨f, hf⟩ : ∃ f, (serializeRecord r).length + 4 =
      f + (r.suggested_labels.length + 12) := by
    have h := fieldsTail_length r []
    refine ⟨(serializeRecord r).length + 4 -
      (r.suggested_labels.length + 12), ?_⟩
    have hs : (serializeRecord r).length = (fieldsTail r []).length + 1 := by
      rw [show serializeRecord r = '{' :: fieldsTail r [] from rfl]
      simp
    omega
  unfold parseJsonAll
  rw [hf, show serializeRecord r = '{' :: fieldsTail r [] from rfl,
    parseRecord r [] f]

theorem parseIssueType_toText (t : IssueType) : parseIssueType t.toText = some t := by
  cases t <;> rfl

theorem strsOf_map (ls : List String) : strsOf (ls.map JVal.str) = some ls := by
  induction ls with
  | nil => rfl
  | cons x xs ih => simp [strsOf, ih]

theorem validateRecord_recordJVal (r : AnalysisRecord) (hv : ValidRecord r) :
    validateRecord (recordJVal r) = some r := by
  obtain ⟨s, t, p, pj, lb, im, cd, dr⟩ := r
  obtain ⟨h1, h2, h3⟩ := hv
  simp only [AnalysisRecord.priority_score] at h1 h2
  simp only [AnalysisRecord.confidence_score] at h3
  simp [validateRecord, recordJVal, List.lookup, asStr, asNum, asStrList,
    strsOf_map, parseIssueType_toText, h1, h2, h3]

theorem strArrTail_push (ls : List String) : ∀ a b : List Char,
    strArrTail ls a ++ b = strArrTail ls (a ++ b) := by
  induction ls with
  | nil => intro a b; simp [strArrTail]
  | cons x xs ih =>
    cases xs with
    | nil => intro a b; simp [strArrTail]
    | cons y ys => intro a b; simp [strArrTail, ih]

theorem fieldsTail_decomp (r : AnalysisRecord) :
    ∃ mid, fieldsTail r [] = mid ++ ['}'] := by
  refine ⟨renderString "summary" ++ ':' :: (renderString r.summary ++ ',' ::
    (renderString "type" ++ ':' :: (renderString r.type.toText ++ ',' ::
    (renderString "priority_score" ++ ':' ::
      (renderDec ⟨r.priority_score, 0⟩ ++ ',' ::
    (renderString "priority_justification" ++ ':' ::
      (renderString r.priority_justification ++ ',' ::
    (renderString "suggested_labels" ++ ':' ::
      ('[' :: strArrTail r.suggested_labels (',' ::
    (renderString "potential_impact" ++ ':' ::
      (renderString r.potential_impact ++ ',' ::
    (renderString "confidence_score" ++ ':' ::
      (renderDec r.confidence_score ++ ',' ::
    (renderString "draft_response" ++ ':' ::
      renderString r.draft_response))))))))))))))), ?_⟩
  simp [fieldsTail, strArrTail_push]

theorem serialize_getLast (r : AnalysisRecord) :
    (serializeRecord r).getLast? = some '}' := by
  obtain ⟨mid, hm⟩ := fieldsTail_decomp r
  rw [show serializeRecord r = '{' :: fieldsTail r [] from rfl, hm,
    show '{' :: (mid ++ ['}']) = ('{' :: mid) ++ ['}'] from rfl,
    List.getLast?_concat]

theorem findFence_wrap (pre : List Char) (hpre : ∀ c ∈ pre, ¬c = btick)
    (rest : List Char) :
    findFence (pre ++ btick :: btick :: btick :: rest) = some rest := by
  induction pre with
  | nil =>
    rw [List.nil_append]
    have hsf : startsFence (btick :: btick :: btick :: rest) = true := rfl
    simp [findFence, hsf]
  | cons c cs ih =>
    have hsf : startsFence (c :: (cs ++ btick :: btick :: btick :: rest)) = false := by
      rw [Bool.eq_false_iff]
      intro h
      simp only [startsFence, List.take_succ_cons, beq_iff_eq,
        List.cons.injEq] at h
      exact hpre c (List.mem_cons_self c cs) h.1
    rw [List.cons_append]
    simp only [findFence, hsf, Bool.false_eq_true, if_false]
    exact ih fun d hd => hpre d (List.mem_cons_of_mem c hd)

theorem takeUntilFence_wrap (a : List Char) (ha : ∀ c ∈ a, ¬c = btick)
    (rest : List Char) :
    takeUntilFence (a ++ btick :: btick :: btick :: rest) = some (a, rest) := by
  induction a with
  | nil =>
    rw [List.nil_append]
    have hsf : startsFence (btick :: btick :: btick :: rest) = true := rfl
    simp [takeUntilFence, hsf]
  | cons c cs ih =>
    have hsf : startsFence (c :: (cs ++ btick :: btick :: btick :: rest)) = false := by
      rw [Bool.eq_false_iff]
      intro h
      simp only [startsFence, List.take_succ_cons, beq_iff_eq,
        List.cons.injEq] at h
      exact ha c (List.mem_cons_self c cs) h.1
    rw [List.cons_append]
    simp only [takeUntilFence, hsf, Bool.false_eq_true, if_false]
    rw [ih fun d hd => ha d (List.mem_cons_of_mem c hd)]

theorem trimChars_wrap (cs : List Char)
    (h1 : ∀ c, cs.head? = some c → isWsChar c = false)
    (h2 : ∀ c, cs.getLast? = some c → isWsChar c = false) :
    trimChars ('\n' :: (cs ++ ['\n'])) = cs := by
  cases cs with
  | nil => rfl
  | cons c t =>
    have hc : isWsChar c = false := h1 c rfl
    unfold trimChars
    rw [show ('\n' :: (c :: t ++ ['\n'])) = '\n' :: c :: (t ++ ['\n']) from rfl]
    rw [List.dropWhile_cons, if_pos (show isWsChar '\n' = true from rfl)]
    rw [List.dropWhile_cons, hc]
    simp only [Bool.false_eq_true, if_false]
    rw [show c :: (t ++ ['\n']) = (c :: t) ++ ['\n'] from rfl, List.reverse_append]
    rw [show (['\n'] : List Char).reverse = ['\n'] from rfl, List.singleton_append]
    rw [List.dropWhile_cons, if_pos (show isWsChar '\n' = true from rfl)]
    cases hrev : (c :: t).reverse with
    | nil => exact absurd (congrArg List.length hrev) (by simp)
    | cons d ds =>
      have hgl : (c :: t).getLast? = some d := by
        rw [← List.head?_reverse, hrev]; rfl
      have hd : isWsChar d = false := h2 d hgl
      rw [List.dropWhile_cons, hd]
      simp only [Bool.false_eq_true, if_false]
      rw [← hrev, List.reverse_reverse]

theorem extractFenced_wrap (pre post payload : List Char)
    (hpre : ∀ c ∈ pre, ¬c = btick) (hpay : ∀ c ∈ payload, ¬c = btick)
    (hh : ∀ c, payload.head? = some c → isWsChar c = false)
    (hl : ∀ c, payload.getLast? = some c → isWsChar c = false) :
    extractFenced (wrapFenced pre post payload) = some payload := by
  have h2 : takeUntilFence (skipJsonTag ('j' :: 's' :: 'o' :: 'n' :: '\n' ::
      (payload ++ '\n' :: btick :: btick :: btick :: post))) =
      some ('\n' :: (payload ++ ['\n']), post) := by
    rw [show skipJsonTag ('j' :: 's' :: 'o' :: 'n' :: '\n' ::
      (payload ++ '\n' :: btick :: btick :: btick :: post)) =
      '\n' :: (payload ++ '\n' :: btick :: btick :: btick :: post) from rfl]
    rw [show '\n' :: (payload ++ '\n' :: btick :: btick :: btick :: post) =
      ('\n' :: (payload ++ ['\n'])) ++ btick :: btick :: btick :: post from by simp]
    refine takeUntilFence_wrap _ ?_ post
    intro c hc
    rcases List.mem_cons.mp hc with h | h
    · subst h; decide
    · rcases List.mem_append.mp h with h | h
      · exact hpay c h
      · rw [List.mem_singleton.mp h]; decide
  unfold extractFenced wrapFenced
  rw [findFence_wrap pre hpre]
  simp only [h2]
  rw [trimChars_wrap payload hh hl]

theorem proseChar_facts (c : Char) (h : proseChar c = true) :
    ¬c = '"' ∧ ¬c = '[' ∧ ¬c = '{' ∧ c.isDigit = false ∧ ¬c = btick := by
  simp only [proseChar, Bool.not_eq_eq_eq_not, Bool.not_true,
    Bool.or_eq_false_iff, decide_eq_false_iff_not] at h
  exact ⟨h.1.1.1.1, h.1.1.1.2, h.1.1.2, h.1.2, h.2⟩

theorem stage1_wrap_none (pre post payload : List Char)
    (hpre : ∀ c ∈ pre, proseChar c = true) :
    stage1Parse (wrapFenced pre post payload) = none := by
  unfold stage1Parse parseJsonAll
  cases pre with
  | nil =>
    rw [show wrapFenced [] post payload = btick :: btick :: btick :: 'j' :: 's' ::
      'o' :: 'n' :: '\n' :: (payload ++ '\n' :: btick :: btick :: btick :: post)
      from rfl]
    rw [show (btick :: btick :: btick :: 'j' :: 's' :: 'o' :: 'n' :: '\n' ::
      (payload ++ '\n' :: btick :: btick :: btick :: post)).length + 4 =
      ((btick :: btick :: btick :: 'j' :: 's' :: 'o' :: 'n' :: '\n' ::
      (payload ++ '\n' :: btick :: btick :: btick :: post)).length + 3) + 1
      from rfl]
    rw [parseVal.eq_def]
    simp [show ¬(btick = '"') from by decide, show ¬(btick = '[') from by decide,
      show ¬(btick = '{') from by decide, show btick.isDigit = false from by decide]
  | cons c cs =>
    obtain ⟨hc1, hc2, hc3, hc4, hc5⟩ :=
      proseChar_facts c (hpre c (List.mem_cons_self c cs))
    rw [show wrapFenced (c :: cs) post payload = c :: (cs ++ btick :: btick ::
      btick :: 'j' :: 's' :: 'o' :: 'n' :: '\n' ::
      (payload ++ '\n' :: btick :: btick :: btick :: post)) from rfl]
    rw [show (c :: (cs ++ btick :: btick :: btick :: 'j' :: 's' :: 'o' :: 'n' ::
      '\n' :: (payload ++ '\n' :: btick :: btick :: btick :: post))).length + 4 =
      ((c :: (cs ++ btick :: btick :: btick :: 'j' :: 's' :: 'o' :: 'n' :: '\n' ::
      (payload ++ '\n' :: btick :: btick :: btick :: post))).length + 3) + 1
      from rfl]
    rw [parseVal.eq_def]
    simp [hc1, hc2, hc3, hc4]

theorem stage2_wrap (r : AnalysisRecord) (pre post : List Char)
    (hpre : ∀ c ∈ pre, ¬c = btick) (hpay : ∀ c ∈ serializeRecord r, ¬c = btick)
    (hv : ValidRecord r) :
    stage2Parse (wrapFenced pre post (serializeRecord r)) = some r := by
  unfold stage2Parse
  rw [extractFenced_wrap pre post _ hpre hpay ?_ ?_]
  · rw [Option.some_bind, parseJsonAll_serialize, Option.some_bind]
    exact validateRecord_recordJVal r hv
  · intro c hc
    rw [show (serializeRecord r).head? = some '{' from rfl] at hc
    exact Option.some.inj hc ▸ rfl
  · intro c hc
    rw [serialize_getLast r] at hc
    exact Option.some.inj hc ▸ rfl

/-! ## Theorems for the presentation-layer claims -/

/-- C2: `getSimilarityColor` assigns the label "Very Likely Duplicate"
exactly for scores at least 0.85, "Likely Duplicate" exactly on
[0.70, 0.85), "Possibly Related" exactly on [0.50, 0.70) and
"Low Similarity" below 0.50, while the displayed percentage keeps the
continuous score: two scores of one bucket can show different
percentages. -/
theorem similarity_buckets (s : ℚ) :
    (((getSimilarityColor s).label = "Very Likely Duplicate") ↔ 0.85 ≤ s) ∧
    (((getSimilarityColor s).label = "Likely Duplicate") ↔ 0.7 ≤ s ∧ s < 0.85) ∧
    (((getSimilarityColor s).label = "Possibly Related") ↔ 0.5 ≤ s ∧ s < 0.7) ∧
    (((getSimilarityColor s).label = "Low Similarity") ↔ s < 0.5) ∧
    ((getSimilarityColor 0.9).label = (getSimilarityColor 0.95).label ∧
      duplicateMatchPercent 0.9 ≠ duplicateMatchPercent 0.95) := by
  have h90 : duplicateMatchPercent 0.9 = 90 := by
    unfold duplicateMatchPercent jsMathRound
    rw [Int.floor_eq_iff]
    constructor <;> norm_num
  have h95 : duplicateMatchPercent 0.95 = 95 := by
    unfold duplicateMatchPercent jsMathRound
    rw [Int.floor_eq_iff]
    constructor <;> norm_num
  have hc : (getSimilarityColor 0.9).label = (getSimilarityColor 0.95).label ∧
      duplicateMatchPercent 0.9 ≠ duplicateMatchPercent 0.95 := by
    refine ⟨?_, by rw [h90, h95]; decide⟩
    unfold getSimilarityColor
    rw [if_pos (by norm_num : (0.9 : ℚ) ≥ 0.85), if_pos (by norm_num : (0.95 : ℚ) ≥ 0.85)]
  refine ⟨?_, ?_, ?_, ?_, hc⟩ <;>
    · unfold getSimilarityColor
      split_ifs with h1 h2 h3 <;> simp_all <;>
        first
          | linarith
          | (intro h; linarith)

/-- C7 counterexample: the universal fallback clause is false in the
source. Indexing the colors object with the reference type toString walks
the prototype chain and finds the inherited Object.prototype member,
which is truthy, so the || fallback never fires: the edge gets that
inherited function as its color — not the mention color — and its label
is not "references". The same happens for constructor, valueOf and the
other inherited property names. -/
theorem edge_proto_fallback_fails :
    getEdgeColor "toString" = .inherited "toString" ∧
    getEdgeColor "toString" ≠ getEdgeColor "mentions" ∧
    getEdgeLabel "toString" ≠ .str "references" ∧
    getEdgeColor "constructor" = .inherited "constructor" ∧
    getEdgeLabel "__proto__" ≠ .str "references" := by
  refine ⟨by decide, by decide, by decide, by decide, by decide⟩

/-- C7 amended: fixes and closes share the closing-edge color; blocks and
blocked_by each have their own color, distinct from each other, from the
closing color and from the mention color; and a type outside the five-key
map falls back to the mention color with the label "references" exactly
when it also names no inherited Object.prototype member — for a type such
as toString the truthy inherited member is returned instead. -/
theorem edge_type_categories (t : String)
    (henum : t ∉ ["fixes", "closes", "blocks", "blocked_by", "mentions"])
    (hproto : t ∉ objectProtoKeys) :
    getEdgeColor "fixes" = getEdgeColor "closes" ∧
    getEdgeColor "blocks" ≠ getEdgeColor "fixes" ∧
    getEdgeColor "blocked_by" ≠ getEdgeColor "fixes" ∧
    getEdgeColor "blocks" ≠ getEdgeColor "blocked_by" ∧
    getEdgeColor "blocks" ≠ getEdgeColor "mentions" ∧
    getEdgeColor "blocked_by" ≠ getEdgeColor "mentions" ∧
    getEdgeColor t = getEdgeColor "mentions" ∧
    getEdgeLabel t = .str "references" := by
  simp only [List.mem_cons, List.not_mem_nil, or_false, not_or] at henum
  obtain ⟨h1, h2, h3, h4, h5⟩ := henum
  have hb1 : (t == "fixes") = false := beq_eq_false_iff_ne.mpr h1
  have hb2 : (t == "closes") = false := beq_eq_false_iff_ne.mpr h2
  have hb3 : (t == "blocks") = false := beq_eq_false_iff_ne.mpr h3
  have hb4 : (t == "blocked_by") = false := beq_eq_false_iff_ne.mpr h4
  have hb5 : (t == "mentions") = false := beq_eq_false_iff_ne.mpr h5
  have hlkc : List.lookup t edgeColors = none := by
    simp only [edgeColors, List.lookup, hb1, hb2, hb3, hb4, hb5]
  have hlkl : List.lookup t edgeLabelTexts = none := by
    simp only [edgeLabelTexts, List.lookup, hb1, hb2, hb3, hb4, hb5]
  have hgc : jsGetProp edgeColors t = .missing := by
    simp only [jsGetProp, hlkc, if_neg hproto]
  have hgl : jsGetProp edgeLabelTexts t = .missing := by
    simp only [jsGetProp, hlkl, if_neg hproto]
  refine ⟨by decide, by decide, by decide, by decide, by decide, by decide,
    ?_, ?_⟩
  · rw [getEdgeColor, hgc]; decide
  · rw [getEdgeLabel, hgl]; decide

/-- C7 witness: the fallback at the concrete unknown, non-inherited type
duplicate_of. -/
theorem edge_type_categories_witness :
    "duplicate_of" ∉ ["fixes", "closes", "blocks", "blocked_by", "mentions"] ∧
    "duplicate_of" ∉ objectProtoKeys ∧
    getEdgeColor "duplicate_of" = getEdgeColor "mentions" ∧
    getEdgeLabel "duplicate_of" = .str "references" :=
  ⟨by decide, by decide,
   (edge_type_categories "duplicate_of" (by decide) (by decide)).2.2.2.2.2.2.1,
   (edge_type_categories "duplicate_of" (by decide) (by decide)).2.2.2.2.2.2.2⟩

/-- C10: `PriorityBadge` labels scores 5,4,3,2,1 as Critical, High, Medium,
Low, Minimal, and any score outside that set gets the Medium (score-3)
styling while the badge text still carries the literal score value. -/
theorem priority_badge_total :
    (priorityStyle 5).label = "Critical" ∧ (priorityStyle 4).label = "High" ∧
    (priorityStyle 3).label = "Medium" ∧ (priorityStyle 2).label = "Low" ∧
    (priorityStyle 1).label = "Minimal" ∧
    (∀ s : Int, s ∉ ([1, 2, 3, 4, 5] : List Int) → priorityStyle s = mediumStyle) ∧
    priorityStyle 7 = mediumStyle ∧ priorityBadgeText 7 ≠ priorityBadgeText 3 := by
  refine ⟨by decide, by decide, by decide, by decide, by decide, ?_, by decide, by decide⟩
  intro s hs
  simp only [List.mem_cons, List.not_mem_nil, or_false, not_or] at hs
  obtain ⟨h1, h2, h3, h4, h5⟩ := hs
  simp [priorityStyle, priorityConfig, List.lookup,
    beq_eq_false_iff_ne.mpr h1, beq_eq_false_iff_ne.mpr h2,
    beq_eq_false_iff_ne.mpr h3, beq_eq_false_iff_ne.mpr h4,
    beq_eq_false_iff_ne.mpr h5]

/-- C10 witness: the fallback at the concrete out-of-range score 7. -/
theorem priority_badge_total_witness :
    (7 : Int) ∉ ([1, 2, 3, 4, 5] : List Int) ∧ priorityStyle 7 = mediumStyle :=
  ⟨by decide, priority_badge_total.2.2.2.2.2.1 7 (by decide)⟩

/-- C4: for every error input, string or not, the ErrorDisplay mapping
yields a non-empty title, a description, and a non-empty list of
suggestions; as a total function it never throws and is deterministic. -/
theorem error_details_total (e : ErrValue) :
    (getErrorDetails e).title ≠ "" ∧ (getErrorDetails e).suggestions ≠ [] := by
  unfold getErrorDetails
  simp only []
  split_ifs <;> refine ⟨?_, ?_⟩ <;> simp

/-- C5 counterexample: a message that contains "rate limit" but also "404"
is categorized as Issue Not Found, not as a rate-limit failure, because the
not-found branch is tested first. -/
theorem rate_limit_shadowed :
    jsIncludes (jsToLower (errMessageString
      (.str "Error 404: rate limit exceeded"))) "rate limit" = true ∧
    (getErrorDetails (.str "Error 404: rate limit exceeded")).title =
      "Issue Not Found" := by
  constructor <;> decide

/-- C5 amended: a message whose lowercase form contains "rate limit" and
matches none of the earlier branches (not found, 404, private, access
denied, 403) is categorized Rate Limit Exceeded, with a suggestion to wait
before retrying. -/
theorem rate_limit_branch (m : String)
    (hrl : jsIncludes (jsToLower m) "rate limit" = true)
    (h1 : jsIncludes (jsToLower m) "not found" = false)
    (h2 : jsIncludes (jsToLower m) "404" = false)
    (h3 : jsIncludes (jsToLower m) "private" = false)
    (h4 : jsIncludes (jsToLower m) "access denied" = false)
    (h5 : jsIncludes (jsToLower m) "403" = false) :
    (getErrorDetails (.str m)).title = "Rate Limit Exceeded" ∧
    "Wait a few minutes and try again" ∈ (getErrorDetails (.str m)).suggestions := by
  unfold getErrorDetails
  simp [errMessageString, hrl, h1, h2, h3, h4, h5]

/-- C5 witness: the rate-limit branch at a concrete rate-limit message. -/
theorem rate_limit_branch_witness :
    (getErrorDetails (.str "GitHub API rate limit exceeded")).title =
      "Rate Limit Exceeded" ∧
    "Wait a few minutes and try again" ∈
      (getErrorDetails (.str "GitHub API rate limit exceeded")).suggestions :=
  rate_limit_branch "GitHub API rate limit exceeded" (by decide) (by decide)
    (by decide) (by decide) (by decide) (by decide)

/-- C6: a timed-out analysis request (axios code ECONNABORTED) yields a
different message than a connection failure with no response, and the
timeout message is presented under the title Request Timeout with advice
to try again. -/
theorem timeout_distinct_category (e1 e2 : AxiosError)
    (h1 : e1.code = some "ECONNABORTED")
    (h2 : e2.code ≠ some "ECONNABORTED") (h3 : e2.response = none)
    (h4 : e2.request = true) :
    handleAnalyzeCatch e1 ≠ handleAnalyzeCatch e2 ∧
    (getErrorDetails (.str (handleAnalyzeCatch e1))).title = "Request Timeout" ∧
    "Try again in a moment" ∈
      (getErrorDetails (.str (handleAnalyzeCatch e1))).suggestions := by
  have he1 : handleAnalyzeCatch e1 =
      "Request timeout. The analysis is taking too long. Please try again." := by
    unfold handleAnalyzeCatch
    rw [if_pos h1]
  have he2 : handleAnalyzeCatch e2 =
      "Could not connect to the server. Please ensure the backend is running." := by
    simp [handleAnalyzeCatch, h2, h3, h4]
  rw [he1, he2]
  exact ⟨by decide, by decide, by decide⟩

/-- C6 witness: the two categories at concrete axios error values. -/
theorem timeout_distinct_category_witness :
    handleAnalyzeCatch ⟨some "ECONNABORTED", none, false⟩ ≠
      handleAnalyzeCatch ⟨none, none, true⟩ ∧
    (getErrorDetails (.str (handleAnalyzeCatch
      ⟨some "ECONNABORTED", none, false⟩))).title = "Request Timeout" ∧
    "Try again in a moment" ∈ (getErrorDetails (.str (handleAnalyzeCatch
      ⟨some "ECONNABORTED", none, false⟩))).suggestions :=
  timeout_distinct_category _ _ rfl (by decide) rfl rfl

/-- C9: starting from the initial depth 1, every state reachable through
the depth selector, and hence the depth field of every dependencies
request, lies in {1, 2, 3}. -/
theorem depth_always_in_range (events : List DepthChoice) :
    depthState events ∈ ([1, 2, 3] : List Int) ∧
    dependenciesRequestDepth events ∈ ([1, 2, 3] : List Int) := by
  have h : ∀ (es : List DepthChoice) (i : Int), i ∈ ([1, 2, 3] : List Int) →
      es.foldl (fun _ c => jsNumber c.value) i ∈ ([1, 2, 3] : List Int) := by
    intro es
    induction es with
    | nil => intro i hi; exact hi
    | cons c cs ih => intro i _; exact ih (jsNumber c.value) (by cases c <;> decide)
  exact ⟨h events 1 (by decide), h events 1 (by decide)⟩

set_option maxHeartbeats 2000000 in
set_option maxRecDepth 20000 in
/-- C3 counterexample: the repair-parser round trip does not hold for every
valid AnalysisRecord. This record is valid, yet its summary contains a triple
backtick and a closing brace, so after serialization, fencing and prose the
fenced-block stage (stage 2) truncates the interior at the stray fence and
fails, and the brace-matching stage 3 truncates at the stray brace and fails
too, so the whole ResponseRepairParser returns nothing. -/
theorem fenced_round_trip_fails :
    ValidRecord ⟨(String.mk [btick, btick, btick, ' ', Char.ofNat 125]), .bug, 3, "x", ["bug"], "y", ⟨85, 2⟩, "z"⟩ ∧
    stage2Parse (wrapFenced ("Here is the analysis:\n".data) ("\nDone.".data)
      (serializeRecord
        ⟨(String.mk [btick, btick, btick, ' ', Char.ofNat 125]), .bug, 3, "x", ["bug"], "y", ⟨85, 2⟩, "z"⟩)) = none ∧
    repairParse (wrapFenced ("Here is the analysis:\n".data) ("\nDone.".data)
      (serializeRecord
        ⟨(String.mk [btick, btick, btick, ' ', Char.ofNat 125]), .bug, 3, "x", ["bug"], "y", ⟨85, 2⟩, "z"⟩)) = none :=
  ⟨by decide, by decide, by decide⟩

/-- C3 amended: for a valid AnalysisRecord whose serialized JSON contains no
backtick, wrapped in a json-tagged triple-backtick fence between prose (the
leading prose made of characters that open no JSON value and no fence), the
fenced-block stage 2 parses the interior back to the record exactly, and the
staged ResponseRepairParser as a whole returns that record. -/
theorem fenced_round_trip (r : AnalysisRecord) (pre post : List Char)
    (hr : ValidRecord r)
    (hpre : ∀ c ∈ pre, proseChar c = true)
    (hpay : ∀ c ∈ serializeRecord r, ¬c = btick) :
    stage2Parse (wrapFenced pre post (serializeRecord r)) = some r ∧
    repairParse (wrapFenced pre post (serializeRecord r)) = some r := by
  have hpre' : ∀ c ∈ pre, ¬c = btick :=
    fun c hc => (proseChar_facts c (hpre c hc)).2.2.2.2
  have hs2 := stage2_wrap r pre post hpre' hpay hr
  refine ⟨hs2, ?_⟩
  unfold repairParse
  rw [stage1_wrap_none pre post _ hpre]
  simp only [hs2]

set_option maxHeartbeats 2000000 in
set_option maxRecDepth 20000 in
/-- C3 witness: the round trip at a concrete record and concrete prose. -/
theorem fenced_round_trip_witness :
    ValidRecord ⟨"App crashes on startup", .bug, 4,
      "Affects every user at launch", ["bug", "crash"],
      "Blocks all usage until fixed", ⟨85, 2⟩,
      "Thanks for reporting; we are on it."⟩ ∧
    stage2Parse (wrapFenced ("Sure, here is my analysis:\n".data)
      ("\nHope this helps.".data)
      (serializeRecord ⟨"App crashes on startup", .bug, 4,
        "Affects every user at launch", ["bug", "crash"],
        "Blocks all usage until fixed", ⟨85, 2⟩,
        "Thanks for reporting; we are on it."⟩)) =
      some ⟨"App crashes on startup", .bug, 4,
        "Affects every user at launch", ["bug", "crash"],
        "Blocks all usage until fixed", ⟨85, 2⟩,
        "Thanks for reporting; we are on it."⟩ ∧
    repairParse (wrapFenced ("Sure, here is my analysis:\n".data)
      ("\nHope this helps.".data)
      (serializeRecord ⟨"App crashes on startup", .bug, 4,
        "Affects every user at launch", ["bug", "crash"],
        "Blocks all usage until fixed", ⟨85, 2⟩,
        "Thanks for reporting; we are on it."⟩)) =
      some ⟨"App crashes on startup", .bug, 4,
        "Affects every user at launch", ["bug", "crash"],
        "Blocks all usage until fixed", ⟨85, 2⟩,
        "Thanks for reporting; we are on it."⟩ :=
  ⟨by decide,
   (fenced_round_trip ⟨"App crashes on startup", .bug, 4,
      "Affects every user at launch", ["bug", "crash"],
      "Blocks all usage until fixed", ⟨85, 2⟩,
      "Thanks for reporting; we are on it."⟩
      ("Sure, here is my analysis:\n".data) ("\nHope this helps.".data)
      (by decide) (by decide) (by decide)).1,
   (fenced_round_trip ⟨"App crashes on startup", .bug, 4,
      "Affects every user at launch", ["bug", "crash"],
      "Blocks all usage until fixed", ⟨85, 2⟩,
      "Thanks for reporting; we are on it."⟩
      ("Sure, here is my analysis:\n".data) ("\nHope this helps.".data)
      (by decide) (by decide) (by decide)).2⟩

end Seedling
